import Mathlib

/-
  Verification of the scrape-orchestration core of the `web-scraping`
  repository (scraper.ts, browser-pool.ts, types.ts) against its
  natural-language specification.

  The TypeScript source is shallowly embedded: pure string processing
  (the SPA heuristic, output formatting, config merging) becomes Lean
  functions over `List Char` / `String`; the stateful, cooperatively
  scheduled components (browser pool, per-domain throttle, streaming
  generator, p-queue scheduling) become explicit state machines whose
  events are the atomic segments between `await` suspension points.
  External collaborators (fetch, playwright, extractor, converter) are
  oracles supplied as parameters, as in the source they are opaque
  capabilities.
-/

set_option maxRecDepth 4000

/-! ## Basic character-list helpers (shared by the regex embeddings) -/

/-- JS `\s` on the ASCII inputs considered: space, tab, newline, return. -/
def isWS (c : Char) : Bool := c.isWhitespace

/-- Lowercase every character; all regexes in scraper.ts carry the `i` flag,
so the embedding lowercases once and matches case-sensitively after. -/
def lowerChars (s : String) : List Char := s.toList.map Char.toLower

/-- JS `String.prototype.trim` on a char list. -/
def trimChars (l : List Char) : List Char :=
  ((l.dropWhile isWS).reverse.dropWhile isWS).reverse

/-- Consume `[^>]*>`: drop characters up to and including the next `>`.
`none` when no `>` remains (the regex fails to match). -/
def skipToGt : List Char → Option (List Char)
  | [] => none
  | c :: rest => if c = '>' then some rest else skipToGt rest

theorem skipToGt_length {l r : List Char} (h : skipToGt l = some r) :
    r.length < l.length := by
  induction l with
  | nil => simp [skipToGt] at h
  | cons c rest ih =>
    by_cases hc : c = '>'
    · simp [skipToGt, hc] at h; simp [← h]
    · simp [skipToGt, hc] at h
      exact Nat.lt_trans (ih h) (by simp)

/-- Drop everything up to and including the first occurrence of `pat`;
`none` when `pat` does not occur. -/
def dropAfter (pat : List Char) : List Char → Option (List Char)
  | [] => none
  | c :: rest =>
    if pat.isPrefixOf (c :: rest) then some (List.drop pat.length (c :: rest))
    else dropAfter pat rest

theorem dropAfter_length {pat l r : List Char} (h : dropAfter pat l = some r) :
    r.length ≤ l.length := by
  induction l with
  | nil => simp [dropAfter] at h
  | cons c rest ih =>
    by_cases hp : pat.isPrefixOf (c :: rest)
    · simp [dropAfter, hp] at h
      subst h; rw [List.length_drop]; omega
    · simp [dropAfter, hp] at h
      exact Nat.le_trans (ih h) (by simp)

/-- Fuel-driven core of the global non-greedy replace of
`openHead::openRest ... closePat` blocks by nothing (structural in the fuel
so the kernel can evaluate it; the wrapper supplies `fuel = l.length`, which
always suffices because every recursive call shrinks the list). -/
def stripTaggedF (openHead : Char) (openRest closePat : List Char) :
    Nat → List Char → List Char
  | 0, _ => []
  | _, [] => []
  | fuel + 1, c :: rest =>
    if (openHead :: openRest).isPrefixOf (c :: rest) then
      match dropAfter closePat (rest.drop openRest.length) with
      | some rest2 => stripTaggedF openHead openRest closePat fuel rest2
      | none => c :: stripTaggedF openHead openRest closePat fuel rest
    else c :: stripTaggedF openHead openRest closePat fuel rest

/-- Global non-greedy replace of `openHead::openRest ... closePat` blocks by
nothing, i.e. JS `str.replace(/<script[\s\S]*?<\/script>/gi, "")` and the
`style` analogue.  When the opener occurs without a later closer the regex
does not match there, so that text survives — mirrored by the `none` branch. -/
def stripTagged (openHead : Char) (openRest closePat : List Char)
    (l : List Char) : List Char :=
  stripTaggedF openHead openRest closePat l.length l

/-- Attempt `[^>]+>` (the bracketed part of `<[^>]+>`) at the head of the
list: at least one non-`>` character, then up to and past the next `>`. -/
def tagEnd : List Char → Option (List Char)
  | [] => none
  | d :: rest2 => if d = '>' then none else skipToGt rest2

/-- Fuel-driven core of the global replace of `<[^>]+>` by nothing. -/
def stripTagsF : Nat → List Char → List Char
  | 0, _ => []
  | _, [] => []
  | fuel + 1, c :: rest =>
    if c = '<' then
      match tagEnd rest with
      | some rest3 => stripTagsF fuel rest3
      | none => c :: stripTagsF fuel rest
    else c :: stripTagsF fuel rest

/-- Global replace of `<[^>]+>` (at least one non-`>` between the brackets)
by nothing: JS `.replace(/<[^>]+>/g, "")`. -/
def stripTags (l : List Char) : List Char := stripTagsF l.length l

/-! ## `Scraper.looksLikeSPA` (scraper.ts lines 201-220) -/

/-- A `["']` character class match. -/
def isQuote (c : Char) : Bool := c = '"' || c = Char.ofNat 39

/-- After the opening quote: `(?:root|app|__next|__nuxt)["']`.  The regex
engine backtracks through the alternation, so the attempt succeeds exactly
when some alternative is a prefix followed by a quote character. -/
def rootNameAt (l : List Char) : Bool :=
  ["root".toList, "app".toList, "__next".toList, "__nuxt".toList].any
    (fun pat => pat.isPrefixOf l &&
      (match l.drop pat.length with
       | c :: _ => isQuote c
       | [] => false))

/-- Consume the quote that closes the id alternative, then `[^>]*>`, then
`\s*`, then the literal `</div>`. -/
def rootTailAt (l : List Char) : Bool :=
  match l with
  | c :: rest =>
    isQuote c &&
    (match skipToGt rest with
     | some rest2 => "</div>".toList.isPrefixOf (rest2.dropWhile isWS)
     | none => false)
  | [] => false

/-- Attempt `<div\s+id=["'](?:root|app|__next|__nuxt)["'][^>]*>\s*<\/div>`
anchored at the head of an (already lowercased) character list. -/
def emptyRootAt (l : List Char) : Bool :=
  "<div".toList.isPrefixOf l &&
  (let r := l.drop 4
   -- `\s+`: at least one whitespace character, consumed greedily
   (match r with
    | c :: _ => isWS c
    | [] => false) &&
   (let r2 := r.dropWhile isWS
    "id=".toList.isPrefixOf r2 &&
    (let r3 := r2.drop 3
     rootNameAt r3 &&
     -- skip past the matched name (whichever alternative matched first is
     -- irrelevant: the names are not prefixes of one another followed by a
     -- quote simultaneously except identically)
     (["root".toList, "app".toList, "__next".toList, "__nuxt".toList].any
        (fun pat => pat.isPrefixOf r3 && rootTailAt (r3.drop pat.length))))))

/-- `regex.test` semantics: an unanchored search over every start position. -/
def hasEmptyRootFrom : List Char → Bool
  | [] => emptyRootAt []
  | c :: rest => emptyRootAt (c :: rest) || hasEmptyRootFrom rest

/-- Lazy capture `([\s\S]*?)` up to the first occurrence of `pat`; `none`
when `pat` never occurs (the regex fails). -/
def captureUntil (pat : List Char) : List Char → Option (List Char)
  | [] => none
  | c :: rest =>
    if pat.isPrefixOf (c :: rest) then some []
    else (captureUntil pat rest).map (c :: ·)

/-- Attempt `<body[^>]*>([\s\S]*?)<\/body>` at the head of the list,
returning the captured group. -/
def bodyAt (l : List Char) : Option (List Char) :=
  if "<body".toList.isPrefixOf l then
    match skipToGt (l.drop 5) with
    | some r => captureUntil "</body>".toList r
    | none => none
  else none

/-- First match of the body regex over all start positions (`String.match`
returns the first match). -/
def findBody : List Char → Option (List Char)
  | [] => bodyAt []
  | c :: rest =>
    match bodyAt (c :: rest) with
    | some b => some b
    | none => findBody rest

/-- Strip `<script ... </script>` blocks, then `<style ... </style>` blocks,
then every remaining `<[^>]+>` tag, then trim — the post-strip body text of
`looksLikeSPA`. -/
def strippedBody (body : List Char) : List Char :=
  trimChars (stripTags
    (stripTagged '<' "style".toList "</style>".toList
      (stripTagged '<' "script".toList "</script>".toList body)))

/-- `Scraper.looksLikeSPA(html)`: true when the page has an empty well-known
app-root container, or its body text after stripping scripts, styles and
markup is shorter than 200 characters. -/
def looksLikeSPA (html : String) : Bool :=
  let l := lowerChars html
  if hasEmptyRootFrom l then true
  else
    match findBody l with
    | some body => decide ((strippedBody body).length < 200)
    | none => false

example : looksLikeSPA "<html><body><div id=\"root\"></div></body></html>" = true := by decide
example : looksLikeSPA "<html><body>hello</body></html>" = true := by decide
example : hasEmptyRootFrom (lowerChars "<div id=\"app\"> x </div>") = false := by decide
example : looksLikeSPA ("<body>" ++ String.mk (List.replicate 250 'a') ++ "</body>") = false := by decide

/-! ## Data model (types.ts) -/

structure Viewport where
  width : Nat
  height : Nat
deriving DecidableEq, Repr

/-- `ScrapeConfig` from types.ts.  Millisecond quantities are naturals
except `perDomainDelayMs`, which the throttle compares against zero
("0 = disabled", the spec also allows negative). -/
structure ScrapeConfig where
  concurrency : Nat
  timeout : Nat
  waitForNetworkIdle : Bool
  blockResources : Bool
  blockedResourceTypes : List String
  extractMainContent : Bool
  includeMetadata : Bool
  headers : List (String × String)
  userAgent : String
  viewport : Viewport
  waitAfterLoad : Nat
  preExtractScript : Option String
  rotateFingerprints : Bool
  skipStaticDetection : Bool
  contextMaxUses : Nat
  perDomainDelayMs : Int
  documentDelimiters : Bool
deriving DecidableEq, Repr

/-- `DEFAULT_CONFIG` from types.ts. -/
def DEFAULT_CONFIG : ScrapeConfig where
  concurrency := 5
  timeout := 30000
  waitForNetworkIdle := true
  blockResources := true
  blockedResourceTypes := ["image", "stylesheet", "font", "media"]
  extractMainContent := true
  includeMetadata := true
  headers := []
  userAgent := "Mozilla/5.0 (Macintosh; Intel Mac OS X 10_15_7) AppleWebKit/537.36 (KHTML, like Gecko) Chrome/131.0.0.0 Safari/537.36"
  viewport := ⟨1280, 800⟩
  waitAfterLoad := 0
  preExtractScript := none
  rotateFingerprints := true
  skipStaticDetection := false
  contextMaxUses := 50
  perDomainDelayMs := 1000
  documentDelimiters := false

/-- `Partial<ScrapeConfig>`: every key optional.  A present key overrides the
base on spread, including `preExtractScript` explicitly set to `undefined`
(hence the nested Option there). -/
structure ConfigOverride where
  concurrency : Option Nat := none
  timeout : Option Nat := none
  waitForNetworkIdle : Option Bool := none
  blockResources : Option Bool := none
  blockedResourceTypes : Option (List String) := none
  extractMainContent : Option Bool := none
  includeMetadata : Option Bool := none
  headers : Option (List (String × String)) := none
  userAgent : Option String := none
  viewport : Option Viewport := none
  waitAfterLoad : Option Nat := none
  preExtractScript : Option (Option String) := none
  rotateFingerprints : Option Bool := none
  skipStaticDetection : Option Bool := none
  contextMaxUses : Option Nat := none
  perDomainDelayMs : Option Int := none
  documentDelimiters : Option Bool := none
deriving DecidableEq, Repr

/-- The spread `{...DEFAULT_CONFIG, ...config}` / `{...this.config, ...job.config}`. -/
def mergeConfig (base : ScrapeConfig) (ov : Option ConfigOverride) : ScrapeConfig :=
  match ov with
  | none => base
  | some o =>
    { concurrency := o.concurrency.getD base.concurrency
      timeout := o.timeout.getD base.timeout
      waitForNetworkIdle := o.waitForNetworkIdle.getD base.waitForNetworkIdle
      blockResources := o.blockResources.getD base.blockResources
      blockedResourceTypes := o.blockedResourceTypes.getD base.blockedResourceTypes
      extractMainContent := o.extractMainContent.getD base.extractMainContent
      includeMetadata := o.includeMetadata.getD base.includeMetadata
      headers := o.headers.getD base.headers
      userAgent := o.userAgent.getD base.userAgent
      viewport := o.viewport.getD base.viewport
      waitAfterLoad := o.waitAfterLoad.getD base.waitAfterLoad
      preExtractScript := o.preExtractScript.getD base.preExtractScript
      rotateFingerprints := o.rotateFingerprints.getD base.rotateFingerprints
      skipStaticDetection := o.skipStaticDetection.getD base.skipStaticDetection
      contextMaxUses := o.contextMaxUses.getD base.contextMaxUses
      perDomainDelayMs := o.perDomainDelayMs.getD base.perDomainDelayMs
      documentDelimiters := o.documentDelimiters.getD base.documentDelimiters }

structure PageMetadata where
  title : String
  description : String
  url : String
  domain : String
  language : Option String := none
  author : Option String := none
  publishedDate : Option String := none
  wordCount : Nat
deriving DecidableEq, Repr

structure Timing where
  total : Nat
  navigation : Nat
  extraction : Nat
  conversion : Nat
deriving DecidableEq, Repr

structure ScrapeResult where
  id : String
  url : String
  markdown : String
  metadata : PageMetadata
  timing : Timing
  error : Option String := none
deriving DecidableEq, Repr

structure ScrapeJob where
  url : String
  id : String
  priority : Option Nat := none
  config : Option ConfigOverride := none
deriving DecidableEq, Repr

/-- JS truthiness of an optional string (`undefined` and `""` are falsy). -/
def strTruthy : Option String → Bool
  | none => false
  | some s => s ≠ ""

/-- Does `pat` occur as a contiguous run anywhere in the list? -/
def listContainsRun (pat : List Char) : List Char → Bool
  | [] => pat.isPrefixOf []
  | c :: rest => pat.isPrefixOf (c :: rest) || listContainsRun pat rest

/-- `a.includes(b)` for strings. -/
def strIncludes (s sub : String) : Bool := listContainsRun sub.toList s.toList

/-! ## `Scraper.throttleDomain` (scraper.ts lines 226-255), sequential effect

A single un-interleaved execution of `throttleDomain`: given the scraper
configuration, the current domain table and the current time, it returns the
time slept and the updated table.  `parseHost` models `new URL(url).hostname`
(`none` = the constructor threw). -/

/-- JS `Map.set`: update in place, or append a new key at the end. -/
def tableSet (k : String) (v : Nat) (t : List (String × Nat)) : List (String × Nat) :=
  if t.any (fun p => p.1 = k) then
    t.map (fun p => if p.1 = k then (k, v) else p)
  else t ++ [(k, v)]

/-- JS `Map.get`. -/
def tableGet (k : String) : List (String × Nat) → Option Nat
  | [] => none
  | p :: rest => if p.1 = k then some p.2 else tableGet k rest

/-- `throttleDomain`: returns `(millis slept, new table)`.  The sleep is
modelled as exact (`setTimeout` slack is treated separately in the
interleaved model below). -/
def throttleDomain (cfg : ScrapeConfig) (parseHost : String → Option String)
    (table : List (String × Nat)) (now : Nat) (url : String) :
    Nat × List (String × Nat) :=
  if cfg.perDomainDelayMs ≤ 0 then (0, table)
  else
    match parseHost url with
    | none => (0, table)
    | some hostname =>
      let delay := cfg.perDomainDelayMs.toNat
      let wait :=
        match tableGet hostname table with
        | some last => if now - last < delay then delay - (now - last) else 0
        | none => 0
      let now2 := now + wait
      let t2 := tableSet hostname now2 table
      -- prune entries older than 60s once the table exceeds 100 entries
      let t3 := if t2.length > 100 then t2.filter (fun p => !(p.2 < now2 - 60000)) else t2
      (wait, t3)

/-! ## `Scraper.processJob` (scraper.ts lines 257-465)

External collaborators and suspension outcomes are oracles carried by a
`RunEnv`; every `Except.error` models a rejected promise / thrown exception.
Durations are the milliseconds each awaited operation takes, so that the
`performance.now()` bookkeeping of the source can be reproduced: every
timestamp below is elapsed time since `totalStart`. -/

structure FetchResp where
  ok : Bool
  contentType : String
  body : String
  respUrl : String
deriving DecidableEq, Repr

structure ExtractOut where
  content : String
  metadata : PageMetadata
deriving DecidableEq, Repr

structure RunEnv where
  parseHost : String → Option String
  fetchOutcome : Option FetchResp
  fetchDur : Nat
  extractContent : String → String → Except String ExtractOut
  extractFullPage : String → String → Except String ExtractOut
  htmlToMarkdown : String → String → Except String String
  extractDur : Nat
  convertDur : Nat
  acquire : Except String Unit
  acquireDur : Nat
  newPage : Except String Unit
  newPageDur : Nat
  goto : Except String Unit
  gotoDur : Nat
  waitFnDur : Nat
  bannerDur : Nat
  preExtract : Except String Unit
  preExtractDur : Nat
  pageContent : Except String String
  contentDur : Nat
  pageUrl : String
  pageClose : Except String Unit
  pageCloseDur : Nat

/-- `tryStaticFetch` (scraper.ts lines 160-196): plain HTTP fetch attempt;
`none` on any network error, non-OK status, non-HTML content type, or a
body that `looksLikeSPA` flags.  Internally try/catch-complete: it never
rejects. -/
def tryStaticFetch (env : RunEnv) (url : String) : Option (String × String) :=
  match env.fetchOutcome with
  | none => none
  | some resp =>
    if !resp.ok then none
    else if !(strIncludes resp.contentType "text/html" ||
              strIncludes resp.contentType "application/xhtml") then none
    else
      let finalUrl := if resp.respUrl = "" then url else resp.respUrl
      if looksLikeSPA resp.body then none
      else some (resp.body, finalUrl)

/-- `formatMetadataHeader` (scraper.ts lines 485-498). -/
def formatMetadataHeader (meta : PageMetadata) : String :=
  let lines0 : List String := if meta.title ≠ "" then ["# " ++ meta.title] else []
  let lines1 := lines0 ++ [""]
  let details : List String :=
    if meta.description ≠ "" then ["\n\n" ++ meta.description] else []
  let lines2 :=
    if details.length > 0 then lines1 ++ details ++ ["", "---", ""] else lines1
  String.intercalate "\n" lines2

/-- The output assembly shared by both paths: optional metadata header,
markdown, optional `<document>` wrapper. -/
def buildOutput (jc : ScrapeConfig) (jobUrl : String) (md : String)
    (meta : PageMetadata) : String :=
  let out := (if jc.includeMetadata then formatMetadataHeader meta else "") ++ md
  if jc.documentDelimiters then
    "<document source=\"" ++ jobUrl ++ "\" domain=\"" ++ meta.domain ++ "\">\n"
      ++ out ++ "\n</document>"
  else out

/-- `emptyMetadata` (scraper.ts lines 500-512). -/
def emptyMetadata (parseHost : String → Option String) (url : String) : PageMetadata :=
  { title := "", description := "", url := url,
    domain := (parseHost url).getD "", wordCount := 0 }

/-- The `catch (err)` result of `processJob` (scraper.ts lines 441-461):
elapsed total, zeroed stage timings, empty metadata, the error message. -/
def failResult (job : ScrapeJob) (parseHost : String → Option String)
    (total : Nat) (e : String) : ScrapeResult :=
  { id := job.id, url := job.url, markdown := "",
    metadata := emptyMetadata parseHost job.url,
    timing := { total := total, navigation := 0, extraction := 0, conversion := 0 },
    error := some e }

/-- The inner `try` of the browser path (scraper.ts lines 322-437): navigate,
hydration wait (timeout swallowed), banner dismissal (errors swallowed),
optional extra wait, optional pre-extract script (errors NOT swallowed),
capture, extract, convert.  Errors carry the elapsed time at the throw for
the outer catch's `performance.now()` bookkeeping. -/
def browserInner (job : ScrapeJob) (jc : ScrapeConfig) (env : RunEnv)
    (t2 : Nat) : Except (String × Nat) ScrapeResult :=
  match env.goto with
  | .error e => .error (e, t2 + env.gotoDur)
  | .ok _ =>
    let t3 := t2 + env.gotoDur + env.waitFnDur + env.bannerDur
    let t4 := t3 + (if jc.waitAfterLoad > 0 then jc.waitAfterLoad else 0)
    match (if strTruthy jc.preExtractScript then env.preExtract else Except.ok ()) with
    | .error e => .error (e, t4 + env.preExtractDur)
    | .ok _ =>
      let t5 := t4 + (if strTruthy jc.preExtractScript then env.preExtractDur else 0)
      let navTime := t5 - t2
      match env.pageContent with
      | .error e => .error (e, t5 + env.contentDur)
      | .ok html =>
        let finalUrl := env.pageUrl
        let t6 := t5 + env.contentDur
        match (if jc.extractMainContent then env.extractContent html finalUrl
               else env.extractFullPage html finalUrl) with
        | .error e => .error (e, t6 + env.extractDur)
        | .ok ex =>
          match env.htmlToMarkdown ex.content finalUrl with
          | .error e => .error (e, t6 + env.extractDur + env.convertDur)
          | .ok md =>
            .ok { id := job.id, url := job.url,
                  markdown := buildOutput jc job.url md ex.metadata,
                  metadata := ex.metadata,
                  timing := { total := t6 + env.extractDur + env.convertDur,
                              navigation := navTime,
                              extraction := env.contentDur + env.extractDur,
                              conversion := env.convertDur },
                  error := none }

/-- The browser path (scraper.ts lines 315-464): `pool.acquire()` sits
OUTSIDE the try/catch, so its rejection rejects `processJob`; everything
after it is converted into an error-bearing `ScrapeResult`.  The inner
`finally` awaits `page.close()`, whose failure replaces the inner outcome
before the outer catch sees it. -/
def browserPath (job : ScrapeJob) (jc : ScrapeConfig) (env : RunEnv)
    (t1 : Nat) : Except String ScrapeResult :=
  match env.acquire with
  | .error e => .error e
  | .ok _ =>
    let t2 := t1 + env.acquireDur
    match env.newPage with
    | .error e => .ok (failResult job env.parseHost (t2 + env.newPageDur) e)
    | .ok _ =>
      let t3 := t2 + env.newPageDur
      let inner := browserInner job jc env t3
      let closed : Except (String × Nat) ScrapeResult :=
        match env.pageClose with
        | .error ce =>
          .error (ce, (match inner with
                       | .ok r => r.timing.total
                       | .error p => p.2) + env.pageCloseDur)
        | .ok _ => inner
      match closed with
      | .ok r => .ok r
      | .error p => .ok (failResult job env.parseHost p.2 p.1)

/-- Scraper-level state visible to one `processJob` call. -/
structure ScraperCtx where
  config : ScrapeConfig
  table : List (String × Nat)
  now : Nat

/-- The observable effects of one `processJob` call: its outcome (an
`Except.error` is a rejected promise) plus the throttle's sleep and table
update, the only scraper-level state it mutates. -/
structure JobRun where
  outcome : Except String ScrapeResult
  throttleWait : Nat
  table : List (String × Nat)

/-- `processJob` (scraper.ts lines 257-465).  The merged `jobConfig` governs
both paths, but `throttleDomain` reads `this.config` — the orchestrator
configuration — not the merge.  On the static fast path, extraction and
conversion run outside every try/catch of `processJob`. -/
def processJob (sc : ScraperCtx) (env : RunEnv) (job : ScrapeJob) : JobRun :=
  let jc := mergeConfig sc.config job.config
  let thr := throttleDomain sc.config env.parseHost sc.table sc.now job.url
  let wait := thr.1
  let outcome : Except String ScrapeResult :=
    if !jc.skipStaticDetection && !(strTruthy jc.preExtractScript) then
      match tryStaticFetch env job.url with
      | some hf =>
        let tF := wait + env.fetchDur
        (match (if jc.extractMainContent then env.extractContent hf.1 hf.2
                else env.extractFullPage hf.1 hf.2) with
         | .error e => .error e
         | .ok ex =>
           match env.htmlToMarkdown ex.content hf.2 with
           | .error e => .error e
           | .ok md =>
             .ok { id := job.id, url := job.url,
                   markdown := buildOutput jc job.url md ex.metadata,
                   metadata := ex.metadata,
                   timing := { total := tF + env.extractDur + env.convertDur,
                               navigation := tF,
                               extraction := env.extractDur,
                               conversion := env.convertDur },
                   error := none })
      | none => browserPath job jc env (wait + env.fetchDur)
    else browserPath job jc env wait
  { outcome := outcome, throttleWait := wait, table := thr.2 }

/-- `Scraper.scrape` (scraper.ts lines 40-50): build a job, run it, return
`processJob`'s promise unchanged — so a `processJob` rejection rejects the
public `scrape` call. -/
def scrape (sc : ScraperCtx) (env : RunEnv) (url id : String)
    (ov : Option ConfigOverride) : Except String ScrapeResult :=
  (processJob sc env { url := url, id := id, config := ov }).outcome

/-! ## `Scraper.scrapeMany` (scraper.ts lines 56-90)

Each job is wrapped in `queue.add`; `Promise.allSettled` preserves the order
of the promise array (= input order) regardless of completion order.  A
settled promise is either fulfilled with `processJob`'s result, fulfilled
with `undefined` (p-queue returns void when the queue is cleared), or
rejected (e.g. a `processJob` rejection); the per-job `QueueFate` oracle
selects which, and the per-job `ScraperCtx`/`RunEnv` oracles let each job
observe whatever interleaved scraper state it actually ran against. -/

inductive QueueFate where
  | ran
  | cleared
  | addRejected (reason : String)
deriving DecidableEq, Repr

/-- The fallback result of `scrapeMany` for a non-fulfilled slot
(scraper.ts lines 81-88). -/
def settleFallback (job : ScrapeJob) (parseHost : String → Option String)
    (err : String) : ScrapeResult :=
  { id := job.id, url := job.url, markdown := "",
    metadata := emptyMetadata parseHost job.url,
    timing := { total := 0, navigation := 0, extraction := 0, conversion := 0 },
    error := some err }

/-- What `results[i]` of `scrapeMany` is for job `i` (scraper.ts lines 74-89). -/
def settledResult (sc : ScraperCtx) (env : RunEnv) (job : ScrapeJob)
    (fate : QueueFate) : ScrapeResult :=
  match fate with
  | .ran =>
    match (processJob sc env job).outcome with
    | .ok r => r
    | .error e => settleFallback job env.parseHost e
  | .cleared => settleFallback job env.parseHost "Unknown error"
  | .addRejected e => settleFallback job env.parseHost e

/-- `urls.map((url, i) => ...)`, with the running index explicit. -/
def mapWithIndexFrom (f : Nat → α → β) : Nat → List α → List β
  | _, [] => []
  | i, a :: as => f i a :: mapWithIndexFrom f (i + 1) as

/-- `Scraper.scrapeMany`: one result per url, in input order, job `i`
carrying `priority := i` and the shared override. -/
def scrapeMany (scs : Nat → ScraperCtx) (envs : Nat → RunEnv)
    (ids : Nat → String) (ov : Option ConfigOverride)
    (fates : Nat → QueueFate) (urls : List String) : List ScrapeResult :=
  mapWithIndexFrom
    (fun i url =>
      settledResult (scs i) (envs i)
        { url := url, id := ids i, priority := some i, config := ov } (fates i))
    0 urls

/-! ## Claim C9: the SPA heuristic's thresholds -/

/-- C9: a fetched body whose post-strip text is 50 characters long is
classified as needing real rendering (`looksLikeSPA = true`, slow-path
fallback); a body with 500 characters of post-strip text and no empty
app-root container is accepted as final (`looksLikeSPA = false`). -/
theorem C9_spa_heuristic :
    (∀ (html : String) (b : List Char),
        findBody (lowerChars html) = some b →
        (strippedBody b).length = 50 →
        looksLikeSPA html = true) ∧
    (∀ (html : String) (b : List Char),
        hasEmptyRootFrom (lowerChars html) = false →
        findBody (lowerChars html) = some b →
        (strippedBody b).length = 500 →
        looksLikeSPA html = false) := by
  constructor
  · intro html b hf hlen
    unfold looksLikeSPA
    by_cases hr : hasEmptyRootFrom (lowerChars html)
    · simp [hr]
    · simp [hr, hf, hlen]
  · intro html b hr hf hlen
    unfold looksLikeSPA
    simp [hr, hf, hlen]

/-- Witness for C9 at concrete pages: a 50-character body trips the
heuristic, a 500-character one does not. -/
theorem C9_spa_heuristic_witness :
    looksLikeSPA ("<body>" ++ String.mk (List.replicate 50 'a') ++ "</body>") = true ∧
    looksLikeSPA ("<body>" ++ String.mk (List.replicate 500 'a') ++ "</body>") = false :=
  ⟨C9_spa_heuristic.1 _ (List.replicate 50 'a') (by decide) (by decide),
   C9_spa_heuristic.2 _ (List.replicate 500 'a') (by decide) (by decide) (by decide)⟩

/-! ## Claim C2: `scrapeMany` preserves input order -/

theorem browserInner_ok_url {job : ScrapeJob} {jc : ScrapeConfig} {env : RunEnv}
    {t2 : Nat} {r : ScrapeResult} (h : browserInner job jc env t2 = .ok r) :
    r.url = job.url := by
  unfold browserInner at h
  repeat' (first | (dsimp only at h) | (split at h))
  all_goals (first | (cases h; rfl) | simp_all)

theorem browserPath_ok_url {job : ScrapeJob} {jc : ScrapeConfig} {env : RunEnv}
    {t1 : Nat} {r : ScrapeResult} (h : browserPath job jc env t1 = .ok r) :
    r.url = job.url := by
  unfold browserPath at h
  cases hacq : env.acquire with
  | error e => rw [hacq] at h; cases h
  | ok u =>
    rw [hacq] at h
    cases hnp : env.newPage with
    | error e => rw [hnp] at h; dsimp only at h; cases h; rfl
    | ok u2 =>
      rw [hnp] at h; dsimp only at h
      cases hpc : env.pageClose with
      | error ce => rw [hpc] at h; dsimp only at h; cases h; rfl
      | ok u3 =>
        rw [hpc] at h; dsimp only at h
        cases hin : browserInner job jc env (t1 + env.acquireDur + env.newPageDur) with
        | error p => rw [hin] at h; dsimp only at h; cases h; rfl
        | ok r0 => rw [hin] at h; dsimp only at h; cases h; exact browserInner_ok_url hin

theorem processJob_ok_url {sc : ScraperCtx} {env : RunEnv} {job : ScrapeJob}
    {r : ScrapeResult} (h : (processJob sc env job).outcome = .ok r) :
    r.url = job.url := by
  unfold processJob at h
  dsimp only at h
  repeat' (first | (dsimp only at h) | (split at h))
  all_goals (first | (cases h; rfl) | (exact browserPath_ok_url h) | simp_all)

theorem settledResult_url (sc : ScraperCtx) (env : RunEnv) (job : ScrapeJob)
    (fate : QueueFate) : (settledResult sc env job fate).url = job.url := by
  unfold settledResult
  split
  · split
    · rename_i r h
      exact processJob_ok_url h
    · rfl
  · rfl
  · rfl

theorem mapWithIndexFrom_length (f : Nat → α → β) (k : Nat) (l : List α) :
    (mapWithIndexFrom f k l).length = l.length := by
  induction l generalizing k with
  | nil => rfl
  | cons a as ih => simp [mapWithIndexFrom, ih]

theorem mapWithIndexFrom_get (f : Nat → α → β) (k : Nat) (l : List α)
    (i : Nat) (h : i < l.length) :
    (mapWithIndexFrom f k l).get ⟨i, by rw [mapWithIndexFrom_length]; exact h⟩
      = f (k + i) (l.get ⟨i, h⟩) := by
  induction l generalizing k i with
  | nil => exact absurd h (by simp)
  | cons a as ih =>
    cases i with
    | zero => simp [mapWithIndexFrom]
    | succ j =>
      have hj : j < as.length := by simpa using h
      have := ih (k + 1) j hj
      simpa [mapWithIndexFrom, Nat.add_assoc, Nat.add_comm 1 j] using this

theorem scrapeMany_length (scs : Nat → ScraperCtx) (envs : Nat → RunEnv)
    (ids : Nat → String) (ov : Option ConfigOverride) (fates : Nat → QueueFate)
    (urls : List String) :
    (scrapeMany scs envs ids ov fates urls).length = urls.length :=
  mapWithIndexFrom_length _ 0 urls

/-- C2: for every input url list — failing urls included — `scrapeMany`
returns one result per url with `result[i].url = urls[i]`, in input order
for any completion order (`Promise.allSettled` indexes by submission). -/
theorem C2_scrapeMany_order (scs : Nat → ScraperCtx) (envs : Nat → RunEnv)
    (ids : Nat → String) (ov : Option ConfigOverride) (fates : Nat → QueueFate)
    (urls : List String) :
    (scrapeMany scs envs ids ov fates urls).length = urls.length ∧
    ∀ (i : Nat) (h : i < urls.length),
      ((scrapeMany scs envs ids ov fates urls).get
          ⟨i, by rw [scrapeMany_length]; exact h⟩).url = urls.get ⟨i, h⟩ := by
  refine ⟨scrapeMany_length scs envs ids ov fates urls, fun i h => ?_⟩
  unfold scrapeMany
  rw [mapWithIndexFrom_get
    (fun i url => settledResult (scs i) (envs i)
      { url := url, id := ids i, priority := some i, config := ov } (fates i))
    0 urls i h]
  exact settledResult_url _ _ _ _

/-! ## Concrete fixtures for witnesses and counterexamples -/

/-- A benign oracle environment: every collaborator succeeds instantly,
the plain fetch fails (forcing the browser path when reached). -/
def unitEnv : RunEnv where
  parseHost := fun _ => none
  fetchOutcome := none
  fetchDur := 0
  extractContent := fun _ _ => .ok { content := "c", metadata := { title := "", description := "", url := "", domain := "", wordCount := 1 } }
  extractFullPage := fun _ _ => .ok { content := "c", metadata := { title := "", description := "", url := "", domain := "", wordCount := 1 } }
  htmlToMarkdown := fun _ _ => .ok "md"
  extractDur := 0
  convertDur := 0
  acquire := .ok ()
  acquireDur := 0
  newPage := .ok ()
  newPageDur := 0
  goto := .ok ()
  gotoDur := 0
  waitFnDur := 0
  bannerDur := 0
  preExtract := .ok ()
  preExtractDur := 0
  pageContent := .ok "<html></html>"
  contentDur := 0
  pageUrl := "http://a.example/"
  pageClose := .ok ()
  pageCloseDur := 0

def baseCtx : ScraperCtx where
  config := DEFAULT_CONFIG
  table := []
  now := 0

/-- Witness for C2 at a concrete two-url batch. -/
theorem C2_scrapeMany_order_witness :
    (0 : Nat) < (["http://a.example/", "http://b.example/"] : List String).length ∧
    ((scrapeMany (fun _ => baseCtx) (fun _ => unitEnv) (fun _ => "id") none
        (fun _ => QueueFate.ran) ["http://a.example/", "http://b.example/"]).get
        ⟨0, by rw [scrapeMany_length]; decide⟩).url
      = (["http://a.example/", "http://b.example/"] : List String).get ⟨0, by decide⟩ :=
  ⟨by decide,
   (C2_scrapeMany_order (fun _ => baseCtx) (fun _ => unitEnv) (fun _ => "id") none
      (fun _ => QueueFate.ran) ["http://a.example/", "http://b.example/"]).2 0 (by decide)⟩

/-! ## Claim C1: are all job failures converted into a `ScrapeResult`? -/

/-- After a successful `pool.acquire`, every failure of the browser path is
caught: the only rejection `browserPath` can produce is the acquire's own. -/
theorem browserPath_error_acquire {job : ScrapeJob} {jc : ScrapeConfig}
    {env : RunEnv} {t1 : Nat} {e : String}
    (h : browserPath job jc env t1 = .error e) : env.acquire = .error e := by
  unfold browserPath at h
  cases hacq : env.acquire with
  | error e0 =>
    rw [hacq] at h; dsimp only at h
    cases h; rfl
  | ok u =>
    rw [hacq] at h
    cases hnp : env.newPage with
    | error e1 => rw [hnp] at h; dsimp only at h; cases h
    | ok u2 =>
      rw [hnp] at h; dsimp only at h
      cases hpc : env.pageClose with
      | error ce => rw [hpc] at h; dsimp only at h; cases h
      | ok u3 =>
        rw [hpc] at h; dsimp only at h
        cases hin : browserInner job jc env (t1 + env.acquireDur + env.newPageDur) with
        | error p => rw [hin] at h; dsimp only at h; cases h
        | ok r0 => rw [hin] at h; dsimp only at h; cases h

/-- C1 (amended): `processJob` can reject — and hence reject the public
`scrape` — only when `pool.acquire` itself rejects or when the static fast
path was hit and its unguarded extraction/conversion failed; every other
stage failure is converted into a `ScrapeResult`.  `scrapeMany` converts
even those rejections into error-bearing results. -/
theorem C1_failure_conversion (sc : ScraperCtx) (env : RunEnv) (job : ScrapeJob)
    (e : String) :
    ((processJob sc env job).outcome = .error e →
      env.acquire = .error e ∨
      ((!(mergeConfig sc.config job.config).skipStaticDetection &&
        !(strTruthy (mergeConfig sc.config job.config).preExtractScript)) = true ∧
       (tryStaticFetch env job.url).isSome = true)) ∧
    ((processJob sc env job).outcome = .error e →
      settledResult sc env job .ran = settleFallback job env.parseHost e) := by
  constructor
  · intro h
    unfold processJob at h
    dsimp only at h
    split at h
    · rename_i hcond
      split at h
      · rename_i hf hsf
        refine Or.inr ⟨hcond, by simp [hsf]⟩
      · exact Or.inl (browserPath_error_acquire h)
    · exact Or.inl (browserPath_error_acquire h)
  · intro h
    unfold settledResult
    rw [h]

/-- Witness for C1's amended statement: at a concrete environment whose
static-path extraction throws, `processJob` indeed rejects, and both
disjunction and batch-conversion conclusions hold. -/
def spaFreeBody : String := "<body>" ++ String.mk (List.replicate 250 'a') ++ "</body>"

def staticFailEnv : RunEnv :=
  { unitEnv with
    fetchOutcome := some { ok := true, contentType := "text/html",
                           body := spaFreeBody, respUrl := "" },
    extractContent := fun _ _ => .error "boom" }

def jobA : ScrapeJob := { url := "http://a.example/", id := "job-1" }

/-- C1 (counterexample): the claim says a failure during extraction is
converted into a `ScrapeResult`, never a rejection of `scrapeOne`; but with
the fetch succeeding on a static page and the extractor throwing, the
public `scrape` rejects with the extractor's error. -/
theorem C1_counterexample :
    scrape baseCtx staticFailEnv "http://a.example/" "job-1" none
      = .error "boom" := by rfl

theorem C1_failure_conversion_witness :
    (processJob baseCtx staticFailEnv jobA).outcome = .error "boom" ∧
    (staticFailEnv.acquire = .error "boom" ∨
     ((!(mergeConfig baseCtx.config jobA.config).skipStaticDetection &&
       !(strTruthy (mergeConfig baseCtx.config jobA.config).preExtractScript)) = true ∧
      (tryStaticFetch staticFailEnv jobA.url).isSome = true)) ∧
    settledResult baseCtx staticFailEnv jobA .ran
      = settleFallback jobA staticFailEnv.parseHost "boom" :=
  ⟨by rfl,
   (C1_failure_conversion baseCtx staticFailEnv jobA "boom").1 (by rfl),
   (C1_failure_conversion baseCtx staticFailEnv jobA "boom").2 (by rfl)⟩

/-! ## Claim C6: the shape of failure `ScrapeResult`s -/

/-- A successful inner browser run always carries `error := none`. -/
theorem browserInner_ok_error_none {job : ScrapeJob} {jc : ScrapeConfig}
    {env : RunEnv} {t2 : Nat} {r : ScrapeResult}
    (h : browserInner job jc env t2 = .ok r) : r.error = none := by
  unfold browserInner at h
  repeat' (first | (dsimp only at h) | (split at h))
  all_goals (first | (cases h; rfl) | simp_all)

/-- Every error-carrying result the browser path can return is a
`failResult`: stage timings zero, `emptyMetadata`, empty markdown. -/
theorem browserPath_error_shape {job : ScrapeJob} {jc : ScrapeConfig}
    {env : RunEnv} {t1 : Nat} {r : ScrapeResult} {e : String}
    (h : browserPath job jc env t1 = .ok r) (he : r.error = some e) :
    r.timing.navigation = 0 ∧ r.timing.extraction = 0 ∧
    r.timing.conversion = 0 ∧ r.metadata = emptyMetadata env.parseHost job.url ∧
    r.markdown = "" := by
  unfold browserPath at h
  cases hacq : env.acquire with
  | error e0 => rw [hacq] at h; cases h
  | ok u =>
    rw [hacq] at h
    cases hnp : env.newPage with
    | error e1 =>
      rw [hnp] at h; dsimp only at h; cases h
      exact ⟨rfl, rfl, rfl, rfl, rfl⟩
    | ok u2 =>
      rw [hnp] at h; dsimp only at h
      cases hpc : env.pageClose with
      | error ce =>
        rw [hpc] at h; dsimp only at h; cases h
        exact ⟨rfl, rfl, rfl, rfl, rfl⟩
      | ok u3 =>
        rw [hpc] at h; dsimp only at h
        cases hin : browserInner job jc env (t1 + env.acquireDur + env.newPageDur) with
        | error p =>
          rw [hin] at h; dsimp only at h; cases h
          exact ⟨rfl, rfl, rfl, rfl, rfl⟩
        | ok r0 =>
          rw [hin] at h; dsimp only at h; cases h
          exact absurd he (by simp [browserInner_ok_error_none hin])

/-- C6 (amended): every failure `processJob` converts into a result carries
zeroed navigation/extraction/conversion timings, `emptyMetadata` and empty
markdown — but `timing.total` is the elapsed time at the failure, not 0. -/
theorem C6_error_result_shape (sc : ScraperCtx) (env : RunEnv) (job : ScrapeJob)
    (r : ScrapeResult) (e : String)
    (h : (processJob sc env job).outcome = .ok r) (he : r.error = some e) :
    r.timing.navigation = 0 ∧ r.timing.extraction = 0 ∧
    r.timing.conversion = 0 ∧ r.metadata = emptyMetadata env.parseHost job.url ∧
    r.markdown = "" := by
  unfold processJob at h
  dsimp only at h
  split at h
  · split at h
    · repeat' split at h
      all_goals (cases h <;> cases he)
    · exact browserPath_error_shape h he
  · exact browserPath_error_shape h he

/-- A navigation failure after 7ms of elapsed work. -/
def navFailEnv : RunEnv :=
  { unitEnv with
    fetchDur := 2, acquireDur := 1, newPageDur := 1, gotoDur := 3,
    goto := .error "navigation timeout" }

def jobB : ScrapeJob := { url := "http://b.example/", id := "job-2" }

def resB : ScrapeResult :=
  { id := "job-2", url := "http://b.example/", markdown := "",
    metadata := emptyMetadata navFailEnv.parseHost "http://b.example/",
    timing := { total := 7, navigation := 0, extraction := 0, conversion := 0 },
    error := some "navigation timeout" }

/-- C6 (counterexample): a failed job's result does not have `total = 0` —
here a navigation failure produces `timing.total = 7`, the elapsed time. -/
theorem C6_counterexample :
    (processJob baseCtx navFailEnv jobB).outcome = .ok resB ∧
    resB.error.isSome = true ∧ resB.timing.total ≠ 0 :=
  ⟨by rfl, by rfl, by decide⟩

theorem C6_error_result_shape_witness :
    (processJob baseCtx navFailEnv jobB).outcome = .ok resB ∧
    resB.error = some "navigation timeout" ∧
    (resB.timing.navigation = 0 ∧ resB.timing.extraction = 0 ∧
     resB.timing.conversion = 0 ∧
     resB.metadata = emptyMetadata navFailEnv.parseHost jobB.url ∧
     resB.markdown = "") :=
  ⟨by rfl, by rfl,
   C6_error_result_shape baseCtx navFailEnv jobB resB "navigation timeout"
     (by rfl) (by rfl)⟩

/-! ## Claim C10: the throttle reads the orchestrator config, not the override -/

/-- C10: the throttle effect of `processJob` (sleep and table update) is
identical for any two job config overrides — `throttleDomain` receives
`this.config`, never the merged `jobConfig`.  In particular, the global
`perDomainDelayMs <= 0` disables throttling even when the override sets a
positive delay, and a positive global delay is applied even when the
override sets `perDomainDelayMs = 0`. -/
theorem C10_throttle_ignores_override (sc : ScraperCtx) (env : RunEnv)
    (url id : String) (pr : Option Nat) (ov1 ov2 : Option ConfigOverride) :
    ((processJob sc env { url := url, id := id, priority := pr, config := ov1 }).throttleWait
       = (processJob sc env { url := url, id := id, priority := pr, config := ov2 }).throttleWait ∧
     (processJob sc env { url := url, id := id, priority := pr, config := ov1 }).table
       = (processJob sc env { url := url, id := id, priority := pr, config := ov2 }).table) ∧
    (sc.config.perDomainDelayMs ≤ 0 →
      (processJob sc env { url := url, id := id, priority := pr, config := ov1 }).throttleWait = 0 ∧
      (processJob sc env { url := url, id := id, priority := pr, config := ov1 }).table = sc.table) ∧
    (∀ (host : String) (t : Nat),
      0 < sc.config.perDomainDelayMs →
      env.parseHost url = some host →
      tableGet host sc.table = some t →
      sc.now - t < sc.config.perDomainDelayMs.toNat →
      (processJob sc env { url := url, id := id, priority := pr, config := ov1 }).throttleWait
        = sc.config.perDomainDelayMs.toNat - (sc.now - t)) := by
  refine ⟨⟨rfl, rfl⟩, ?_, ?_⟩
  · intro hle
    unfold processJob throttleDomain
    simp [hle]
  · intro host t hpos hhost hget hlt
    unfold processJob throttleDomain
    have hnle : ¬ sc.config.perDomainDelayMs ≤ 0 := by omega
    simp [hnle, hhost, hget, hlt]

def hostEnv : RunEnv :=
  { unitEnv with
    parseHost := fun u => if u = "http://a.example/" then some "a.example" else none }

def throttledCtx : ScraperCtx where
  config := DEFAULT_CONFIG
  table := [("a.example", 0)]
  now := 500

/-- Witness for C10: an override disabling the delay leaves the throttle
untouched — the wait is still computed from the global 1000ms delay. -/
theorem C10_throttle_ignores_override_witness :
    ((processJob throttledCtx hostEnv
        { url := "http://a.example/", id := "j", priority := some 0,
          config := some { perDomainDelayMs := some 0 } }).throttleWait
      = (processJob throttledCtx hostEnv
          { url := "http://a.example/", id := "j", priority := some 0,
            config := none }).throttleWait) ∧
    (processJob throttledCtx hostEnv
        { url := "http://a.example/", id := "j", priority := some 0,
          config := some { perDomainDelayMs := some 0 } }).throttleWait = 500 :=
  ⟨((C10_throttle_ignores_override throttledCtx hostEnv "http://a.example/" "j"
      (some 0) (some { perDomainDelayMs := some 0 }) none).1).1,
   by
    have := (C10_throttle_ignores_override throttledCtx hostEnv "http://a.example/" "j"
      (some 0) (some { perDomainDelayMs := some 0 }) none).2.2 "a.example" 0
      (by decide) (by rfl) (by rfl) (by decide)
    simpa using this⟩

/-! ## Claim C7: start order of queued jobs under p-queue priorities

`scrapeMany` passes `priority: i` for the i-th url (scraper.ts line 62,
"preserve input order for priority").  p-queue's documented contract is
"operations with a GREATER priority will be scheduled first", with FIFO
ties: its queue is kept sorted by descending priority, a new element going
after every element of priority >= its own.  Jobs added while a concurrency
slot is free start immediately; every later start dequeues the head. -/

/-- p-queue enqueue: insert keeping descending priority, after equals. -/
def pqEnqueue (p : Nat) (x : α) : List (Nat × α) → List (Nat × α)
  | [] => [(p, x)]
  | (q, y) :: rest =>
    if p ≤ q then (q, y) :: pqEnqueue p x rest
    else (p, x) :: (q, y) :: rest

/-- Enqueue a batch in submission order into an empty queue. -/
def pqOfList (l : List (Nat × α)) : List (Nat × α) :=
  l.foldl (fun q px => pqEnqueue px.1 px.2 q) []

/-- The order in which a batch of `n` jobs submitted together through
`scrapeMany` (priorities `0..n-1` in input order) begins executing with
concurrency `c`: the first `c` adds start at once (each is dequeued from a
then-empty queue); the rest queue up and start in dequeue = descending
priority order as slots free up. -/
def scrapeManyStartOrder (c n : Nat) : List Nat :=
  (List.range n).take c ++
    (pqOfList (((List.range n).drop c).map (fun i => (i, i)))).map Prod.snd

/-- C7: with concurrency 1 and three urls, the queued jobs start in REVERSE
input order — p-queue schedules greater priority first, so `priority: i`
makes later urls run earlier, contradicting the claimed
lower-value-runs-earlier order (and the source's own comment). -/
theorem C7_priority_reversal :
    scrapeManyStartOrder 1 3 = [0, 2, 1] ∧
    scrapeManyStartOrder 1 3 ≠ [0, 1, 2] := by decide

/-! ## Claim C3: `scrapeStream` (scraper.ts lines 95-154)

The generator keeps a `results` buffer, a `pending` countdown initialised to
`urls.length`, and a `done` flag that is set only inside a job's `finally`
when `pending` reaches 0.  The consumer loop runs while `!done ||
results.length > 0`, shifting buffered results and otherwise awaiting a
notify.  Atomic events: a job settling (its push + finally), and the
consumer shifting one buffered result. -/

inductive GenEv where
  | complete (j : Nat)
  | consume
deriving DecidableEq, Repr

structure GenSt where
  buffer : List Nat
  pending : Nat
  done : Bool
  yielded : List Nat
deriving DecidableEq, Repr

def genInit (n : Nat) : GenSt := { buffer := [], pending := n, done := false, yielded := [] }

def genStep (s : GenSt) : GenEv → GenSt
  | .complete j =>
    let p := s.pending - 1
    { s with buffer := s.buffer ++ [j], pending := p,
             done := s.done || decide (p = 0) }
  | .consume =>
    match s.buffer with
    | [] => s
    | j :: rest => { s with buffer := rest, yielded := s.yielded ++ [j] }

def genRun (n : Nat) (evs : List GenEv) : GenSt := evs.foldl genStep (genInit n)

/-- The loop guard `while (!done || results.length > 0)` lets the generator
finish exactly when `done` is set and the buffer is drained. -/
def genCanExit (s : GenSt) : Bool := s.done && s.buffer.isEmpty

/-- C3 (code evaluated at the failing input): with zero urls no job ever
runs, so no `finally` ever sets `done` — whatever the consumer does, the
loop guard never lets the generator exit: `scrapeStream([])` deadlocks
instead of yielding the empty sequence. -/
theorem genConsume_keeps_done_false (evs : List GenEv) :
    ∀ (s : GenSt), s.done = false →
      (∀ ev ∈ evs, ev = GenEv.consume) → (evs.foldl genStep s).done = false := by
  induction evs with
  | nil => intro s hs _; exact hs
  | cons ev rest ih =>
    intro s hs hall
    have hev : ev = GenEv.consume := hall ev (by simp)
    subst hev
    have hstep : (genStep s GenEv.consume).done = false := by
      unfold genStep
      cases hb : s.buffer with
      | nil => simpa using hs
      | cons j bs => simpa using hs
    exact ih (genStep s GenEv.consume) hstep (fun e he => hall e (by simp [he]))

theorem C3_empty_stream_deadlock (evs : List GenEv)
    (h : ∀ ev ∈ evs, ev = GenEv.consume) :
    genCanExit (genRun 0 evs) = false := by
  unfold genCanExit genRun
  rw [genConsume_keeps_done_false evs (genInit 0) rfl h]
  rfl

theorem C3_empty_stream_deadlock_witness :
    (∀ ev ∈ [GenEv.consume, GenEv.consume], ev = GenEv.consume) ∧
    genCanExit (genRun 0 [GenEv.consume, GenEv.consume]) = false :=
  ⟨by decide, C3_empty_stream_deadlock [GenEv.consume, GenEv.consume] (by decide)⟩

/-- The jobs settled during a trace, in completion order. -/
def completionsOf : List GenEv → List Nat
  | [] => []
  | GenEv.complete j :: rest => j :: completionsOf rest
  | GenEv.consume :: rest => completionsOf rest

theorem gen_delivery_invariant (evs : List GenEv) :
    ∀ (s : GenSt),
      (evs.foldl genStep s).yielded ++ (evs.foldl genStep s).buffer
        = s.yielded ++ s.buffer ++ completionsOf evs := by
  induction evs with
  | nil => intro s; simp [completionsOf]
  | cons ev rest ih =>
    intro s
    cases ev with
    | complete j =>
      simp only [List.foldl_cons]
      rw [ih (genStep s (GenEv.complete j))]
      simp [genStep, completionsOf]
    | consume =>
      simp only [List.foldl_cons]
      rw [ih (genStep s GenEv.consume)]
      unfold genStep
      cases hb : s.buffer with
      | nil => simp [completionsOf, hb]
      | cons j bs => simp [completionsOf, hb]

/-- Supporting exactness result for the streaming channel: whenever the
generator's exit condition is reached, the yielded sequence is exactly the
settled jobs, one each, in completion order — nothing dropped, nothing
duplicated.  (The claim itself is settled as a code bug because with zero
jobs the exit condition is unreachable.) -/
theorem gen_drains_exactly (n : Nat) (evs : List GenEv)
    (hexit : genCanExit (genRun n evs) = true) :
    (genRun n evs).yielded = completionsOf evs := by
  have hbuf : (genRun n evs).buffer = [] := by
    unfold genCanExit at hexit
    rcases Bool.and_eq_true_iff.mp hexit with ⟨_, h2⟩
    exact List.isEmpty_iff.mp h2
  have hinv := gen_delivery_invariant evs (genInit n)
  simp only [genRun] at hbuf ⊢
  rw [hbuf] at hinv
  simpa [genInit] using hinv

/-! ## Claim C8: dispatch-timestamp spacing under interleaved throttle calls

Cooperative interleaving of several `throttleDomain` callers targeting the
same host.  Each call is two atomic phases: the synchronous prefix (read
`domainLastRequest`, decide to sleep or to record `Date.now()` at once) and,
for sleepers, a timer phase (runs no earlier than the wake time, then
records `Date.now()`).  The table is restricted to the one host all callers
share; other hosts never interact with it. -/

inductive ThrProc where
  | start
  | sleeping (wake : Nat)
  | finished (rec : Nat)
deriving DecidableEq, Repr

structure ThrSt where
  time : Nat
  table : Option Nat
  procs : List ThrProc
deriving DecidableEq, Repr

/-- The synchronous prefix of `throttleDomain` for one caller (delay > 0):
read the last-dispatch stamp; if too recent, schedule a wake at
`now + (delay - elapsed)`; otherwise record `Date.now()` immediately. -/
def thrPhase (delay time : Nat) (table : Option Nat) : ThrProc × Option Nat :=
  match table with
  | none => (.finished time, some time)
  | some last =>
    if time - last < delay then
      (.sleeping (time + (delay - (time - last))), table)
    else (.finished time, some time)

inductive ThrEv where
  | run (i : Nat)
  | tick (d : Nat)
deriving DecidableEq, Repr

def thrStep (delay : Nat) (s : ThrSt) : ThrEv → ThrSt
  | .tick d => { s with time := s.time + d }
  | .run i =>
    match s.procs.get? i with
    | none => s
    | some .start =>
      let pr := thrPhase delay s.time s.table
      { s with procs := s.procs.set i pr.1, table := pr.2 }
    | some (.sleeping w) =>
      -- a timer never fires early; when it runs, the caller records Date.now()
      if w ≤ s.time then
        { s with procs := s.procs.set i (.finished s.time), table := some s.time }
      else s
    | some (.finished _) => s

def thrRun (delay : Nat) (s : ThrSt) (evs : List ThrEv) : ThrSt :=
  evs.foldl (thrStep delay) s

/-- Three same-host callers, fresh host, time 0. -/
def thrInit3 : ThrSt := { time := 0, table := none, procs := [.start, .start, .start] }

/-- Two same-host callers, fresh host, time 0. -/
def thrInit2 : ThrSt := { time := 0, table := none, procs := [.start, .start] }

/-- C8 (counterexample): with a prior same-host dispatch on record, two
callers that overlap during the wait both read the same old stamp, sleep to
the same wake time, and record IDENTICAL dispatch timestamps — gap 0, not
`>= perDomainDelayMs` (1000 here).  Caller 0 provides the prior dispatch;
callers 1 and 2 are the overlapping back-to-back pair. -/
theorem C8_counterexample :
    thrRun 1000 thrInit3
        [ThrEv.run 0, ThrEv.run 1, ThrEv.run 2, ThrEv.tick 1000,
         ThrEv.run 1, ThrEv.run 2]
      = { time := 1000, table := some 1000,
          procs := [.finished 0, .finished 1000, .finished 1000] } ∧
    ¬ (1000 ≤ max 1000 1000 - min 1000 1000) := by decide

/-- Pairwise protocol invariant for two same-host callers: the table always
holds the latest record; a sleeper's wake time is the recorded stamp plus
the delay; two finished callers' records are at least `delay` apart. -/
def thrPair (delay : Nat) (table : Option Nat) : ThrProc → ThrProc → Prop
  | .start, .start => table = none
  | .start, .finished r => table = some r
  | .finished r, .start => table = some r
  | .start, .sleeping _ => False
  | .sleeping _, .start => False
  | .sleeping _, .sleeping _ => False
  | .sleeping w, .finished r => table = some r ∧ w = r + delay
  | .finished r, .sleeping w => table = some r ∧ w = r + delay
  | .finished r0, .finished r1 => r0 + delay ≤ r1 ∨ r1 + delay ≤ r0

def thrInv (delay : Nat) (s : ThrSt) : Prop :=
  (∀ t, s.table = some t → t ≤ s.time) ∧
  (match s.procs with
   | [p0, p1] => thrPair delay s.table p0 p1
   | _ => False)

theorem thrInv_step (delay : Nat) (s : ThrSt) (ev : ThrEv)
    (h : thrInv delay s) : thrInv delay (thrStep delay s ev) := by
  obtain ⟨htime, hpair⟩ := h
  rcases s with ⟨time, table, procs⟩
  rcases procs with _ | ⟨p0, _ | ⟨p1, _ | ⟨p2, rest⟩⟩⟩
  · exact absurd hpair (by simp)
  · exact absurd hpair (by simp)
  case cons.cons.cons => exact absurd hpair (by simp)
  -- procs = [p0, p1]
  simp only at hpair
  dsimp only at htime
  cases ev with
  | tick d =>
    refine ⟨fun t ht => ?_, ?_⟩
    · simp only [thrStep] at ht ⊢
      have := htime t ht
      omega
    · simpa only [thrStep] using hpair
  | run i =>
    rcases i with _ | _ | i
    · -- run 0
      cases p0 with
      | start =>
        cases table with
        | none =>
          cases p1 with
          | start =>
            refine ⟨fun t ht => ?_, ?_⟩
            · simp [thrStep, thrPhase] at ht ⊢; omega
            · simp [thrStep, thrPhase, thrPair]
          | sleeping w => exact absurd hpair (by simp [thrPair])
          | finished r => exact absurd hpair (by simp [thrPair])
        | some last =>
          cases p1 with
          | start => exact absurd hpair (by simp [thrPair])
          | sleeping w => exact absurd hpair (by simp [thrPair])
          | finished r =>
            have hlr : last = r := by
              have h2 : some last = some r := by simpa [thrPair] using hpair
              exact Option.some.inj h2
            subst hlr
            have hle : last ≤ time := htime last rfl
            by_cases hw : time - last < delay
            · refine ⟨fun t ht => ?_, ?_⟩
              · simp [thrStep, thrPhase, hw] at ht ⊢; omega
              · simp [thrStep, thrPhase, hw, thrPair]; omega
            · refine ⟨fun t ht => ?_, ?_⟩
              · simp [thrStep, thrPhase, hw] at ht ⊢; omega
              · simp [thrStep, thrPhase, hw, thrPair]; omega
      | sleeping w =>
        cases p1 with
        | start => exact absurd hpair (by simp [thrPair])
        | sleeping v => exact absurd hpair (by simp [thrPair])
        | finished r =>
          obtain ⟨htab, hwake⟩ : table = some r ∧ w = r + delay := by
            simpa [thrPair] using hpair
          subst hwake
          subst htab
          have hle : r ≤ time := htime r rfl
          by_cases hge : r + delay ≤ time
          · refine ⟨fun t ht => ?_, ?_⟩
            · simp [thrStep, hge] at ht ⊢; omega
            · simp [thrStep, hge, thrPair]
          · refine ⟨fun t ht => ?_, ?_⟩
            · simp [thrStep, hge] at ht ⊢; omega
            · simp [thrStep, hge, thrPair]
      | finished r =>
        refine ⟨fun t ht => ?_, ?_⟩
        · simp [thrStep] at ht ⊢
          have := htime t ht
          omega
        · simpa [thrStep] using hpair
    · -- run 1
      cases p1 with
      | start =>
        cases table with
        | none =>
          cases p0 with
          | start =>
            refine ⟨fun t ht => ?_, ?_⟩
            · simp [thrStep, thrPhase] at ht ⊢; omega
            · simp [thrStep, thrPhase, thrPair]
          | sleeping w => exact absurd hpair (by simp [thrPair])
          | finished r => exact absurd hpair (by simp [thrPair])
        | some last =>
          cases p0 with
          | start => exact absurd hpair (by simp [thrPair])
          | sleeping w => exact absurd hpair (by simp [thrPair])
          | finished r =>
            have hlr : last = r := by
              have h2 : some last = some r := by simpa [thrPair] using hpair
              exact Option.some.inj h2
            subst hlr
            have hle : last ≤ time := htime last rfl
            by_cases hw : time - last < delay
            · refine ⟨fun t ht => ?_, ?_⟩
              · simp [thrStep, thrPhase, hw] at ht ⊢; omega
              · simp [thrStep, thrPhase, hw, thrPair]; omega
            · refine ⟨fun t ht => ?_, ?_⟩
              · simp [thrStep, thrPhase, hw] at ht ⊢; omega
              · simp [thrStep, thrPhase, hw, thrPair]; omega
      | sleeping w =>
        cases p0 with
        | start => exact absurd hpair (by simp [thrPair])
        | sleeping v => exact absurd hpair (by simp [thrPair])
        | finished r =>
          obtain ⟨htab, hwake⟩ : table = some r ∧ w = r + delay := by
            simpa [thrPair] using hpair
          subst hwake
          subst htab
          have hle : r ≤ time := htime r rfl
          by_cases hge : r + delay ≤ time
          · refine ⟨fun t ht => ?_, ?_⟩
            · simp [thrStep, hge] at ht ⊢; omega
            · simp [thrStep, hge, thrPair]
          · refine ⟨fun t ht => ?_, ?_⟩
            · simp [thrStep, hge] at ht ⊢; omega
            · simp [thrStep, hge, thrPair]
      | finished r =>
        refine ⟨fun t ht => ?_, ?_⟩
        · simp [thrStep] at ht ⊢
          have := htime t ht
          omega
        · simpa [thrStep] using hpair
    · refine ⟨fun t ht => ?_, ?_⟩
      · simp [thrStep] at ht ⊢
        have := htime t ht
        omega
      · simpa [thrStep] using hpair

theorem thrInv_run (delay : Nat) (evs : List ThrEv) :
    ∀ (s : ThrSt), thrInv delay s → thrInv delay (thrRun delay s evs) := by
  induction evs with
  | nil => intro s hs; exact hs
  | cons ev rest ih =>
    intro s hs
    exact ih (thrStep delay s ev) (thrInv_step delay s ev hs)

theorem thrInv_init2 (delay : Nat) : thrInv delay thrInit2 := by
  constructor
  · intro t ht; simp [thrInit2] at ht
  · simp [thrInit2, thrPair]

/-- C8 (amended): when the two jobs are the first two dispatches to their
host (no prior entry in the pacing table), their recorded dispatch
timestamps are at least `delay` apart under every interleaving — the first
caller records synchronously before any suspension, so the second always
waits on the first's record.  (With a prior same-host entry, overlapping
waiters can tie; see the counterexample.) -/
theorem C8_first_two_dispatches_spaced (delay : Nat) (evs : List ThrEv)
    (r0 r1 : Nat) (_hd : 0 < delay)
    (h : (thrRun delay thrInit2 evs).procs
          = [ThrProc.finished r0, ThrProc.finished r1]) :
    r0 + delay ≤ r1 ∨ r1 + delay ≤ r0 := by
  have hinv := thrInv_run delay evs thrInit2 (thrInv_init2 delay)
  obtain ⟨-, hpair⟩ := hinv
  rw [h] at hpair
  simpa [thrPair] using hpair

theorem C8_first_two_dispatches_spaced_witness :
    (0 < 1000 ∧
     (thrRun 1000 thrInit2 [ThrEv.run 0, ThrEv.tick 1000, ThrEv.run 1]).procs
       = [ThrProc.finished 0, ThrProc.finished 1000]) ∧
    (0 + 1000 ≤ 1000 ∨ 1000 + 1000 ≤ 0) :=
  ⟨⟨by decide, by decide⟩,
   C8_first_two_dispatches_spaced 1000 [ThrEv.run 0, ThrEv.tick 1000, ThrEv.run 1]
     0 1000 (by decide) (by decide)⟩

/-! ## `BrowserPool` (browser-pool.ts)

Cooperative state machine over the pool's mutable state.  A handle (the
`BrowserContext` object identity) is a pair `(slot id, generation)`: the
generation bumps every time `recycleContext` replaces the slot's context.
Events are the atomic segments between suspension points:

* `acquire healthy` — `acquire()` pops the available stack; the oracle says
  whether the `context.pages()` health probe succeeds.  A healthy pop marks
  the entry busy and hands it out; an unhealthy pop awaits `recycleContext`
  and hands out the fresh entry (use count 1).  With the stack empty the
  caller joins the waiter queue (modelled by a counter).
* `release id gen` — `release(ctx)`: look the handle up among the current
  contexts (a stale generation finds nothing and returns).  Mark idle; when
  `contextMaxUses > 0 && useCount >= contextMaxUses` start the asynchronous
  recycle (the slot is in `recycling` until it completes); otherwise hand
  the entry to the first waiter (who increments its use count) or push it
  back on the available stack.
* `recycleFinish id` — the `.then` continuation of `release`'s
  `recycleContext(...)`: the slot gets a fresh context (generation + 1, use
  count 0) and goes to the first waiter or the available stack.

`held` is the history variable recording handed-out, not-yet-released
handles — the subject of the mutual-exclusion claim. -/

structure PoolEntry where
  gen : Nat
  useCount : Nat
  busy : Bool
deriving DecidableEq, Repr

structure PoolState where
  contextsMap : List (Nat × PoolEntry)
  avail : List (Nat × Nat)
  waiters : Nat
  recycling : List (Nat × Nat)
  held : List (Nat × Nat)
deriving DecidableEq, Repr

/-- Remove the first occurrence of an element (the splice that takes a
handed-back entry out of a JS array / the ghost sets). -/
def removeFirst {β : Type} [DecidableEq β] (a : β) : List β → List β
  | [] => []
  | b :: rest => if b = a then rest else b :: removeFirst a rest

/-- `Map.get` on an association list. -/
def assocFind {β : Type} (id : Nat) : List (Nat × β) → Option β
  | [] => none
  | p :: rest => if p.1 = id then some p.2 else assocFind id rest

/-- Update the value stored under an existing key (`Map.set` for a present
key; the pool never sets an absent slot id). -/
def updEntry {β : Type} (id : Nat) (f : β → β) (m : List (Nat × β)) :
    List (Nat × β) :=
  m.map (fun p => if p.1 = id then (p.1, f p.2) else p)

inductive PoolEv where
  | acquire (healthy : Bool)
  | release (id gen : Nat)
  | recycleFinish (id : Nat)
deriving DecidableEq, Repr

def poolStep (maxUses : Nat) (s : PoolState) : PoolEv → PoolState
  | .acquire healthy =>
    match s.avail with
    | [] => { s with waiters := s.waiters + 1 }
    | (id, g) :: rest =>
      if healthy then
        { s with avail := rest,
                 contextsMap := updEntry id
                   (fun e => { e with useCount := e.useCount + 1, busy := true })
                   s.contextsMap,
                 held := (id, g) :: s.held }
      else
        { s with avail := rest,
                 contextsMap := updEntry id
                   (fun _ => { gen := g + 1, useCount := 1, busy := true })
                   s.contextsMap,
                 held := (id, g + 1) :: s.held }
  | .release id g =>
    match assocFind id s.contextsMap with
    | none => s
    | some e =>
      if e.gen = g then
        let m1 := updEntry id (fun e => { e with busy := false }) s.contextsMap
        let heldAfter := removeFirst (id, g) s.held
        if 0 < maxUses ∧ maxUses ≤ e.useCount then
          { s with contextsMap := m1, held := heldAfter,
                   recycling := (id, g) :: s.recycling }
        else if 0 < s.waiters then
          { s with contextsMap := updEntry id
                     (fun e => { e with useCount := e.useCount + 1, busy := true }) m1,
                   held := (id, g) :: heldAfter, waiters := s.waiters - 1 }
        else
          { s with contextsMap := m1, held := heldAfter,
                   avail := (id, g) :: s.avail }
      else s
  | .recycleFinish id =>
    match assocFind id s.recycling with
    | none => s
    | some g =>
      if 0 < s.waiters then
        { s with contextsMap := updEntry id
                   (fun _ => { gen := g + 1, useCount := 1, busy := true })
                   s.contextsMap,
                 recycling := removeFirst (id, g) s.recycling,
                 waiters := s.waiters - 1,
                 held := (id, g + 1) :: s.held }
      else
        { s with contextsMap := updEntry id
                   (fun _ => { gen := g + 1, useCount := 0, busy := false })
                   s.contextsMap,
                 recycling := removeFirst (id, g) s.recycling,
                 avail := (id, g + 1) :: s.avail }

/-- `initialize()`: `poolSize` pre-created contexts, ids `0..n-1`, all
available, fresh generation 0. -/
def initPool (n : Nat) : PoolState :=
  { contextsMap := (List.range n).map (fun i => (i, ⟨0, 0, false⟩)),
    avail := (List.range n).map (fun i => (i, 0)),
    waiters := 0, recycling := [], held := [] }

def poolRun (maxUses : Nat) (s : PoolState) (evs : List PoolEv) : PoolState :=
  evs.foldl (poolStep maxUses) s

/-- `release(handle)` is meaningful only for a handle the caller was handed
and has not yet released; acquisitions and recycle completions are always
well-formed. -/
def okEvB (s : PoolState) : PoolEv → Bool
  | .release id g => decide ((id, g) ∈ s.held)
  | _ => true

def validSeqB (maxUses : Nat) : PoolState → List PoolEv → Bool
  | _, [] => true
  | s, ev :: evs => okEvB s ev && validSeqB maxUses (poolStep maxUses s ev) evs

theorem assocFind_updEntry_self {β : Type} (id : Nat) (f : β → β)
    (m : List (Nat × β)) :
    assocFind id (updEntry id f m) = (assocFind id m).map f := by
  induction m with
  | nil => rfl
  | cons p rest ih =>
    by_cases hp : p.1 = id
    · simp [updEntry, assocFind, hp]
    · simpa [updEntry, assocFind, hp] using ih

theorem assocFind_updEntry_other {β : Type} {id id2 : Nat} (hne : id2 ≠ id)
    (f : β → β) (m : List (Nat × β)) :
    assocFind id2 (updEntry id f m) = assocFind id2 m := by
  induction m with
  | nil => rfl
  | cons p rest ih =>
    by_cases hp : p.1 = id
    · subst hp
      have h1 : ¬ (p.1 = id2) := fun h => hne h.symm
      simp [updEntry, assocFind, h1]
      simpa [updEntry] using ih
    · by_cases hp2 : p.1 = id2
      · simp [updEntry, assocFind, hp, hp2, hne]
      · simp [updEntry, assocFind, hp, hp2]
        simpa [updEntry] using ih

/-- C5: (a) a release that finds `useCount >= contextMaxUses` with a
positive `contextMaxUses` sends the slot into recycling; (b) when the
recycle completes, the slot id holds a DIFFERENT underlying handle
(generation + 1) whose use count is 0 — or 1 when a waiter immediately
acquired it, which is "after its next acquire"; (c) with `contextMaxUses
= 0`, a release never triggers recycling. -/
theorem C5_recycle_semantics (maxUses : Nat) (s : PoolState) (id g : Nat) :
    (∀ e : PoolEntry,
      assocFind id s.contextsMap = some e → e.gen = g →
      0 < maxUses → maxUses ≤ e.useCount →
      (id, g) ∈ (poolStep maxUses s (.release id g)).recycling) ∧
    (assocFind id s.recycling = some g →
      (assocFind id s.contextsMap).isSome = true →
      ((assocFind id (poolStep maxUses s (.recycleFinish id)).contextsMap).map PoolEntry.gen
          = some (g + 1) ∧
       g + 1 ≠ g ∧
       (s.waiters = 0 →
         (assocFind id (poolStep maxUses s (.recycleFinish id)).contextsMap).map PoolEntry.useCount
           = some 0) ∧
       (0 < s.waiters →
         (assocFind id (poolStep maxUses s (.recycleFinish id)).contextsMap).map PoolEntry.useCount
           = some 1))) ∧
    (poolStep 0 s (.release id g)).recycling = s.recycling := by
  refine ⟨?_, ?_, ?_⟩
  · intro e hfind hgen hpos hle
    simp only [poolStep, hfind, hgen, if_pos rfl]
    simp [if_pos (And.intro hpos hle)]
  · intro hrec hsome
    obtain ⟨e0, he0⟩ := Option.isSome_iff_exists.mp hsome
    by_cases hw : 0 < s.waiters
    · simp only [poolStep, hrec, if_pos hw]
      refine ⟨?_, by omega, ?_, ?_⟩
      · simp [assocFind_updEntry_self, he0]
      · intro h0; omega
      · intro _; simp [assocFind_updEntry_self, he0]
    · simp only [poolStep, hrec, if_neg hw]
      refine ⟨?_, by omega, ?_, ?_⟩
      · simp [assocFind_updEntry_self, he0]
      · intro _; simp [assocFind_updEntry_self, he0]
      · intro h0; omega
  · cases hfind : assocFind id s.contextsMap with
    | none => simp [poolStep, hfind]
    | some e =>
      by_cases hgen : e.gen = g
      · have hmax : ¬ (0 < (0 : Nat) ∧ 0 ≤ e.useCount) := by omega
        by_cases hw : 0 < s.waiters
        · simp [poolStep, hfind, hgen, hmax, hw]
        · simp [poolStep, hfind, hgen, hmax, hw]
      · simp [poolStep, hfind, hgen]

theorem perm_cons_removeFirst {β : Type} [DecidableEq β] {a : β} {l : List β}
    (h : a ∈ l) : List.Perm l (a :: removeFirst a l) := by
  induction l with
  | nil => cases h
  | cons b rest ih =>
    by_cases hb : b = a
    · subst hb; simp [removeFirst]
    · have hmem : a ∈ rest := by
        cases List.mem_cons.mp h with
        | inl h1 => exact absurd h1.symm hb
        | inr h2 => exact h2
      have h1 : List.Perm (b :: rest) (b :: (a :: removeFirst a rest)) :=
        List.Perm.cons b (ih hmem)
      have h2 : List.Perm (b :: (a :: removeFirst a rest))
          (a :: (b :: removeFirst a rest)) := List.Perm.swap a b _
      have h3 : a :: b :: removeFirst a rest = a :: removeFirst a (b :: rest) := by
        simp [removeFirst, hb]
      exact h3 ▸ (h1.trans h2)

theorem assocFind_mem {β : Type} {id : Nat} {v : β} {l : List (Nat × β)}
    (h : assocFind id l = some v) : (id, v) ∈ l := by
  induction l with
  | nil => cases h
  | cons p rest ih =>
    obtain ⟨p1, p2⟩ := p
    by_cases hp : p1 = id
    · simp only [assocFind, hp, if_pos rfl] at h
      have h2 : p2 = v := Option.some.inj (by simpa [hp] using h)
      subst hp; subst h2
      exact List.mem_cons_self _ _
    · simp only [assocFind] at h
      rw [if_neg hp] at h
      exact List.mem_cons_of_mem _ (ih h)

/-- All slot ids currently in the available stack, held out, or recycling. -/
def idsOf (s : PoolState) : List Nat :=
  s.held.map Prod.fst ++ s.avail.map Prod.fst ++ s.recycling.map Prod.fst

/-- The generation (handle identity) currently stored for a slot id. -/
def genAt (s : PoolState) (id : Nat) : Option Nat :=
  (assocFind id s.contextsMap).map PoolEntry.gen

/-- A generation-preserving context update leaves `genAt` untouched. -/
theorem assocFind_map_gen_upd (f : PoolEntry → PoolEntry)
    (hf : ∀ e, (f e).gen = e.gen) (m : List (Nat × PoolEntry)) (id id2 : Nat) :
    (assocFind id2 (updEntry id f m)).map PoolEntry.gen
      = (assocFind id2 m).map PoolEntry.gen := by
  by_cases h : id2 = id
  · subst h
    rw [assocFind_updEntry_self]
    cases assocFind id2 m with
    | none => rfl
    | some e => simp [hf]
  · rw [assocFind_updEntry_other h]

/-- The pool invariant: every slot id occurs at most once across
available + held + recycling, and every such handle's generation is the one
currently stored in the contexts map. -/
def poolInv (s : PoolState) : Prop :=
  (∀ x : Nat, (idsOf s).count x ≤ 1) ∧
  (∀ p ∈ s.held, genAt s p.1 = some p.2) ∧
  (∀ p ∈ s.avail, genAt s p.1 = some p.2) ∧
  (∀ p ∈ s.recycling, genAt s p.1 = some p.2)

theorem mem_of_removeFirst {β : Type} [DecidableEq β] {a b : β} {l : List β}
    (h : b ∈ removeFirst a l) : b ∈ l := by
  induction l with
  | nil => cases h
  | cons c rest ih =>
    by_cases hc : c = a
    · simp only [removeFirst, if_pos hc] at h
      exact List.mem_cons_of_mem _ h
    · simp only [removeFirst, if_neg hc] at h
      cases List.mem_cons.mp h with
      | inl h1 => exact h1 ▸ List.mem_cons_self _ _
      | inr h2 => exact List.mem_cons_of_mem _ (ih h2)

theorem idsOf_count_expand (s : PoolState) (x : Nat) :
    (idsOf s).count x
      = (s.held.map Prod.fst).count x + (s.avail.map Prod.fst).count x
        + (s.recycling.map Prod.fst).count x := by
  simp [idsOf, List.count_append]
  omega

theorem assocFind_const_map {β : Type} (e0 : β) (l : List Nat) (i : Nat)
    (h : i ∈ l) : assocFind i (l.map (fun j => (j, e0))) = some e0 := by
  induction l with
  | nil => cases h
  | cons j rest ih =>
    by_cases hj : j = i
    · simp [assocFind, hj]
    · have : i ∈ rest := by
        cases List.mem_cons.mp h with
        | inl h1 => exact absurd h1.symm hj
        | inr h2 => exact h2
      simp [assocFind, hj, ih this]

theorem poolInv_init (n : Nat) : poolInv (initPool n) := by
  refine ⟨?_, ?_, ?_, ?_⟩
  · intro x
    rw [idsOf_count_expand]
    have h1 : (initPool n).held = [] := rfl
    have h2 : (initPool n).recycling = [] := rfl
    have h3 : (initPool n).avail = (List.range n).map (fun i => (i, (0 : Nat))) := rfl
    rw [h1, h2, h3, List.map_map]
    have h4 : (Prod.fst ∘ fun i => ((i : Nat), (0 : Nat))) = id := rfl
    rw [h4, List.map_id]
    have := List.nodup_iff_count_le_one.mp (List.nodup_range n) x
    simpa using this
  · intro p hp; cases hp
  · intro p hp
    obtain ⟨i, hi, hpi⟩ := List.mem_map.mp
      (show p ∈ (List.range n).map (fun i => (i, (0 : Nat))) from hp)
    subst hpi
    simp only [genAt, initPool]
    rw [assocFind_const_map (⟨0, 0, false⟩ : PoolEntry) (List.range n) i hi]
    rfl
  · intro p hp; cases hp

theorem poolInv_step (maxUses : Nat) (s : PoolState) (ev : PoolEv)
    (hok : okEvB s ev = true) (h : poolInv s) : poolInv (poolStep maxUses s ev) := by
  obtain ⟨hcount, hheld, havail, hrec⟩ := h
  cases ev with
  | acquire healthy =>
    cases hav : s.avail with
    | nil =>
      simp only [poolStep, hav]
      refine ⟨?_, hheld, ?_, hrec⟩
      · intro x
        have := hcount x
        rw [idsOf_count_expand] at this
        rw [idsOf_count_expand]
        simpa [hav] using this
      · intro p hp
        exact absurd hp (by simp)
    | cons hd tl =>
      obtain ⟨id, g⟩ := hd
      have hgid : genAt s id = some g := havail (id, g) (by rw [hav]; exact List.mem_cons_self _ _)
      obtain ⟨e, hfind, hegen⟩ : ∃ e, assocFind id s.contextsMap = some e ∧ e.gen = g := by
        cases hf : assocFind id s.contextsMap with
        | none => rw [genAt, hf] at hgid; cases hgid
        | some e =>
          refine ⟨e, rfl, ?_⟩
          rw [genAt, hf] at hgid
          exact Option.some.inj hgid
      -- count bookkeeping shared by both health outcomes
      have hcount' : ∀ x, ((s.held.map Prod.fst).count x + 1 * (if id = x then 1 else 0))
          + (tl.map Prod.fst).count x + (s.recycling.map Prod.fst).count x ≤ 1 := by
        intro x
        have := hcount x
        rw [idsOf_count_expand, hav] at this
        simp only [List.map_cons, List.count_cons] at this
        by_cases hx : id = x
        · simp [hx] at this ⊢; omega
        · simp [hx] at this ⊢; omega
      have hid_not_held : ∀ p ∈ s.held, p.1 ≠ id := by
        intro p hp heq
        have c1 : 0 < (s.held.map Prod.fst).count id :=
          List.count_pos_iff.mpr (heq ▸ List.mem_map_of_mem _ hp)
        have := hcount' id
        simp at this
        omega
      have hid_not_tl : ∀ p ∈ tl, p.1 ≠ id := by
        intro p hp heq
        have c1 : 0 < (tl.map Prod.fst).count id :=
          List.count_pos_iff.mpr (heq ▸ List.mem_map_of_mem _ hp)
        have := hcount' id
        simp at this
        omega
      have hid_not_rec : ∀ p ∈ s.recycling, p.1 ≠ id := by
        intro p hp heq
        have c1 : 0 < (s.recycling.map Prod.fst).count id :=
          List.count_pos_iff.mpr (heq ▸ List.mem_map_of_mem _ hp)
        have := hcount' id
        simp at this
        omega
      cases healthy with
      | true =>
        simp only [poolStep, hav]
        rw [if_pos trivial]
        have hgpres : ∀ id2, (assocFind id2 (updEntry id
            (fun e => { e with useCount := e.useCount + 1, busy := true })
            s.contextsMap)).map PoolEntry.gen
              = (assocFind id2 s.contextsMap).map PoolEntry.gen :=
          fun id2 => assocFind_map_gen_upd
            (fun e => { e with useCount := e.useCount + 1, busy := true })
            (fun _ => rfl) s.contextsMap id id2
        refine ⟨?_, ?_, ?_, ?_⟩
        · intro x
          have := hcount' x
          rw [idsOf_count_expand]
          simp only [List.map_cons, List.count_cons]
          by_cases hx : id = x
          · simp [hx] at this ⊢; omega
          · simp [hx] at this ⊢; omega
        · intro p hp
          cases List.mem_cons.mp hp with
          | inl h1 =>
            subst h1
            show (assocFind id _).map PoolEntry.gen = some g
            rw [hgpres]
            exact hgid
          | inr h2 =>
            show (assocFind p.1 _).map PoolEntry.gen = some p.2
            rw [hgpres]
            exact hheld p h2
        · intro p hp
          show (assocFind p.1 _).map PoolEntry.gen = some p.2
          rw [hgpres]
          exact havail p (by rw [hav]; exact List.mem_cons_of_mem _ hp)
        · intro p hp
          show (assocFind p.1 _).map PoolEntry.gen = some p.2
          rw [hgpres]
          exact hrec p hp
      | false =>
        simp only [poolStep, hav]
        rw [if_neg (Bool.false_ne_true)]
        refine ⟨?_, ?_, ?_, ?_⟩
        · intro x
          have := hcount' x
          rw [idsOf_count_expand]
          simp only [List.map_cons, List.count_cons]
          by_cases hx : id = x
          · simp [hx] at this ⊢; omega
          · simp [hx] at this ⊢; omega
        · intro p hp
          cases List.mem_cons.mp hp with
          | inl h1 =>
            subst h1
            show (assocFind id _).map PoolEntry.gen = some (g + 1)
            rw [assocFind_updEntry_self, hfind]
            rfl
          | inr h2 =>
            show (assocFind p.1 _).map PoolEntry.gen = some p.2
            rw [assocFind_updEntry_other (hid_not_held p h2)]
            exact hheld p h2
        · intro p hp
          show (assocFind p.1 _).map PoolEntry.gen = some p.2
          rw [assocFind_updEntry_other (hid_not_tl p hp)]
          exact havail p (by rw [hav]; exact List.mem_cons_of_mem _ hp)
        · intro p hp
          show (assocFind p.1 _).map PoolEntry.gen = some p.2
          rw [assocFind_updEntry_other (hid_not_rec p hp)]
          exact hrec p hp
  | release id g =>
    have hvalid : (id, g) ∈ s.held := by simpa [okEvB] using hok
    have hgid : genAt s id = some g := hheld (id, g) hvalid
    obtain ⟨e, hfind, hegen⟩ : ∃ e, assocFind id s.contextsMap = some e ∧ e.gen = g := by
      cases hf : assocFind id s.contextsMap with
      | none => rw [genAt, hf] at hgid; cases hgid
      | some e =>
        refine ⟨e, rfl, ?_⟩
        rw [genAt, hf] at hgid
        exact Option.some.inj hgid
    have hpermH : List.Perm (s.held.map Prod.fst)
        (id :: (removeFirst (id, g) s.held).map Prod.fst) := by
      have := (perm_cons_removeFirst hvalid).map Prod.fst
      simpa using this
    have hpermCount : ∀ x, (s.held.map Prod.fst).count x
        = ((removeFirst (id, g) s.held).map Prod.fst).count x
          + (if id = x then 1 else 0) := by
      intro x
      have := hpermH.count_eq x
      simp only [List.count_cons] at this
      by_cases hx : id = x
      · simp [hx] at this ⊢; omega
      · simp [hx] at this ⊢; omega
    have hEmem : ∀ p ∈ removeFirst (id, g) s.held, p ∈ s.held :=
      fun p hp => mem_of_removeFirst hp
    simp only [poolStep, hfind]
    rw [if_pos hegen]
    by_cases hmx : 0 < maxUses ∧ maxUses ≤ e.useCount
    · rw [if_pos hmx]
      refine ⟨?_, ?_, ?_, ?_⟩
      · intro x
        have hc := hcount x
        rw [idsOf_count_expand] at hc
        rw [idsOf_count_expand]
        simp only [List.map_cons, List.count_cons]
        have hpc := hpermCount x
        by_cases hx : id = x
        · simp [hx] at hc hpc ⊢; omega
        · simp [hx] at hc hpc ⊢; omega
      · intro p hp
        show (assocFind p.1 (updEntry id (fun e => { e with busy := false })
          s.contextsMap)).map PoolEntry.gen = some p.2
        rw [assocFind_map_gen_upd (fun e => { e with busy := false }) (fun _ => rfl)]
        exact hheld p (hEmem p hp)
      · intro p hp
        show (assocFind p.1 (updEntry id (fun e => { e with busy := false })
          s.contextsMap)).map PoolEntry.gen = some p.2
        rw [assocFind_map_gen_upd (fun e => { e with busy := false }) (fun _ => rfl)]
        exact havail p hp
      · intro p hp
        cases List.mem_cons.mp hp with
        | inl h1 =>
          subst h1
          show (assocFind id (updEntry id (fun e => { e with busy := false })
            s.contextsMap)).map PoolEntry.gen = some g
          rw [assocFind_map_gen_upd (fun e => { e with busy := false }) (fun _ => rfl)]
          exact hgid
        | inr h2 =>
          show (assocFind p.1 (updEntry id (fun e => { e with busy := false })
            s.contextsMap)).map PoolEntry.gen = some p.2
          rw [assocFind_map_gen_upd (fun e => { e with busy := false }) (fun _ => rfl)]
          exact hrec p h2
    · rw [if_neg hmx]
      have hgp : ∀ id2, (assocFind id2 (updEntry id
          (fun e => { e with useCount := e.useCount + 1, busy := true })
          (updEntry id (fun e => { e with busy := false })
            s.contextsMap))).map PoolEntry.gen
            = (assocFind id2 s.contextsMap).map PoolEntry.gen := by
        intro id2
        rw [assocFind_map_gen_upd
              (fun e => { e with useCount := e.useCount + 1, busy := true })
              (fun _ => rfl),
            assocFind_map_gen_upd (fun e => { e with busy := false })
              (fun _ => rfl)]
      by_cases hw : 0 < s.waiters
      · rw [if_pos hw]
        refine ⟨?_, ?_, ?_, ?_⟩
        · intro x
          have hc := hcount x
          rw [idsOf_count_expand] at hc
          rw [idsOf_count_expand]
          simp only [List.map_cons, List.count_cons]
          have hpc := hpermCount x
          by_cases hx : id = x
          · simp [hx] at hc hpc ⊢; omega
          · simp [hx] at hc hpc ⊢; omega
        · intro p hp
          cases List.mem_cons.mp hp with
          | inl h1 =>
            subst h1
            show (assocFind id _).map PoolEntry.gen = some g
            rw [hgp]
            exact hgid
          | inr h2 =>
            show (assocFind p.1 _).map PoolEntry.gen = some p.2
            rw [hgp]
            exact hheld p (hEmem p h2)
        · intro p hp
          show (assocFind p.1 _).map PoolEntry.gen = some p.2
          rw [hgp]
          exact havail p hp
        · intro p hp
          show (assocFind p.1 _).map PoolEntry.gen = some p.2
          rw [hgp]
          exact hrec p hp
      · rw [if_neg hw]
        refine ⟨?_, ?_, ?_, ?_⟩
        · intro x
          have hc := hcount x
          rw [idsOf_count_expand] at hc
          rw [idsOf_count_expand]
          simp only [List.map_cons, List.count_cons]
          have hpc := hpermCount x
          by_cases hx : id = x
          · simp [hx] at hc hpc ⊢; omega
          · simp [hx] at hc hpc ⊢; omega
        · intro p hp
          show (assocFind p.1 (updEntry id (fun e => { e with busy := false })
            s.contextsMap)).map PoolEntry.gen = some p.2
          rw [assocFind_map_gen_upd (fun e => { e with busy := false }) (fun _ => rfl)]
          exact hheld p (hEmem p hp)
        · intro p hp
          cases List.mem_cons.mp hp with
          | inl h1 =>
            subst h1
            show (assocFind id (updEntry id (fun e => { e with busy := false })
              s.contextsMap)).map PoolEntry.gen = some g
            rw [assocFind_map_gen_upd (fun e => { e with busy := false }) (fun _ => rfl)]
            exact hgid
          | inr h2 =>
            show (assocFind p.1 (updEntry id (fun e => { e with busy := false })
              s.contextsMap)).map PoolEntry.gen = some p.2
            rw [assocFind_map_gen_upd (fun e => { e with busy := false }) (fun _ => rfl)]
            exact havail p h2
        · intro p hp
          show (assocFind p.1 (updEntry id (fun e => { e with busy := false })
            s.contextsMap)).map PoolEntry.gen = some p.2
          rw [assocFind_map_gen_upd (fun e => { e with busy := false }) (fun _ => rfl)]
          exact hrec p hp
  | recycleFinish id =>
    cases hfind : assocFind id s.recycling with
    | none =>
      simp only [poolStep, hfind]
      exact ⟨hcount, hheld, havail, hrec⟩
    | some g =>
      have hmem : (id, g) ∈ s.recycling := assocFind_mem hfind
      have hgid : genAt s id = some g := hrec (id, g) hmem
      obtain ⟨e, hfind2, hegen⟩ : ∃ e, assocFind id s.contextsMap = some e ∧ e.gen = g := by
        cases hf : assocFind id s.contextsMap with
        | none => rw [genAt, hf] at hgid; cases hgid
        | some e =>
          refine ⟨e, rfl, ?_⟩
          rw [genAt, hf] at hgid
          exact Option.some.inj hgid
      have hpermR : List.Perm (s.recycling.map Prod.fst)
          (id :: (removeFirst (id, g) s.recycling).map Prod.fst) := by
        have := (perm_cons_removeFirst hmem).map Prod.fst
        simpa using this
      have hpermCountR : ∀ x, (s.recycling.map Prod.fst).count x
          = ((removeFirst (id, g) s.recycling).map Prod.fst).count x
            + (if id = x then 1 else 0) := by
        intro x
        have := hpermR.count_eq x
        simp only [List.count_cons] at this
        by_cases hx : id = x
        · simp [hx] at this ⊢; omega
        · simp [hx] at this ⊢; omega
      have hcrec : 0 < (s.recycling.map Prod.fst).count id :=
        List.count_pos_iff.mpr (List.mem_map_of_mem _ hmem)
      have hid_not_held : ∀ p ∈ s.held, p.1 ≠ id := by
        intro p hp heq
        have c1 : 0 < (s.held.map Prod.fst).count id :=
          List.count_pos_iff.mpr (heq ▸ List.mem_map_of_mem _ hp)
        have hc := hcount id
        rw [idsOf_count_expand] at hc
        omega
      have hid_not_avail : ∀ p ∈ s.avail, p.1 ≠ id := by
        intro p hp heq
        have c1 : 0 < (s.avail.map Prod.fst).count id :=
          List.count_pos_iff.mpr (heq ▸ List.mem_map_of_mem _ hp)
        have hc := hcount id
        rw [idsOf_count_expand] at hc
        omega
      have hid_not_R : ∀ p ∈ removeFirst (id, g) s.recycling, p.1 ≠ id := by
        intro p hp heq
        have c0 : p.1 ∈ (removeFirst (id, g) s.recycling).map Prod.fst :=
          List.mem_map_of_mem _ hp
        rw [heq] at c0
        have c1 : 0 < ((removeFirst (id, g) s.recycling).map Prod.fst).count id :=
          List.count_pos_iff.mpr c0
        have hc := hcount id
        rw [idsOf_count_expand] at hc
        have hpc := hpermCountR id
        simp at hpc
        omega
      have hRmem : ∀ p ∈ removeFirst (id, g) s.recycling, p ∈ s.recycling :=
        fun p hp => mem_of_removeFirst hp
      simp only [poolStep, hfind]
      by_cases hw : 0 < s.waiters
      · rw [if_pos hw]
        refine ⟨?_, ?_, ?_, ?_⟩
        · intro x
          have hc := hcount x
          rw [idsOf_count_expand] at hc
          rw [idsOf_count_expand]
          simp only [List.map_cons, List.count_cons]
          have hpc := hpermCountR x
          by_cases hx : id = x
          · simp [hx] at hc hpc ⊢; omega
          · simp [hx] at hc hpc ⊢; omega
        · intro p hp
          cases List.mem_cons.mp hp with
          | inl h1 =>
            subst h1
            show (assocFind id (updEntry id
              (fun _ => { gen := g + 1, useCount := 1, busy := true })
              s.contextsMap)).map PoolEntry.gen = some (g + 1)
            rw [assocFind_updEntry_self, hfind2]
            rfl
          | inr h2 =>
            show (assocFind p.1 (updEntry id
              (fun _ => { gen := g + 1, useCount := 1, busy := true })
              s.contextsMap)).map PoolEntry.gen = some p.2
            rw [assocFind_updEntry_other (hid_not_held p h2)]
            exact hheld p h2
        · intro p hp
          show (assocFind p.1 (updEntry id
            (fun _ => { gen := g + 1, useCount := 1, busy := true })
            s.contextsMap)).map PoolEntry.gen = some p.2
          rw [assocFind_updEntry_other (hid_not_avail p hp)]
          exact havail p hp
        · intro p hp
          show (assocFind p.1 (updEntry id
            (fun _ => { gen := g + 1, useCount := 1, busy := true })
            s.contextsMap)).map PoolEntry.gen = some p.2
          rw [assocFind_updEntry_other (hid_not_R p hp)]
          exact hrec p (hRmem p hp)
      · rw [if_neg hw]
        refine ⟨?_, ?_, ?_, ?_⟩
        · intro x
          have hc := hcount x
          rw [idsOf_count_expand] at hc
          rw [idsOf_count_expand]
          simp only [List.map_cons, List.count_cons]
          have hpc := hpermCountR x
          by_cases hx : id = x
          · simp [hx] at hc hpc ⊢; omega
          · simp [hx] at hc hpc ⊢; omega
        · intro p hp
          show (assocFind p.1 (updEntry id
            (fun _ => { gen := g + 1, useCount := 0, busy := false })
            s.contextsMap)).map PoolEntry.gen = some p.2
          rw [assocFind_updEntry_other (hid_not_held p hp)]
          exact hheld p hp
        · intro p hp
          cases List.mem_cons.mp hp with
          | inl h1 =>
            subst h1
            show (assocFind id (updEntry id
              (fun _ => { gen := g + 1, useCount := 0, busy := false })
              s.contextsMap)).map PoolEntry.gen = some (g + 1)
            rw [assocFind_updEntry_self, hfind2]
            rfl
          | inr h2 =>
            show (assocFind p.1 (updEntry id
              (fun _ => { gen := g + 1, useCount := 0, busy := false })
              s.contextsMap)).map PoolEntry.gen = some p.2
            rw [assocFind_updEntry_other (hid_not_avail p h2)]
            exact havail p h2
        · intro p hp
          show (assocFind p.1 (updEntry id
            (fun _ => { gen := g + 1, useCount := 0, busy := false })
            s.contextsMap)).map PoolEntry.gen = some p.2
          rw [assocFind_updEntry_other (hid_not_R p hp)]
          exact hrec p (hRmem p hp)

theorem poolInv_run (maxUses : Nat) (evs : List PoolEv) :
    ∀ (s : PoolState), validSeqB maxUses s evs = true → poolInv s →
      poolInv (poolRun maxUses s evs) := by
  induction evs with
  | nil => intro s _ hs; exact hs
  | cons ev rest ih =>
    intro s hv hs
    obtain ⟨hok, hv2⟩ := Bool.and_eq_true_iff.mp hv
    exact ih (poolStep maxUses s ev) hv2 (poolInv_step maxUses s ev hok hs)

/-- C4: for every protocol-respecting sequence of interleaved
`acquire`/`release` calls (a release always names a handle its caller was
handed and has not yet released), the set of handed-out, unreleased handles
never contains the same pool entry twice — an entry is never held by two
callers simultaneously. -/
theorem C4_no_double_handout (n maxUses : Nat) (evs : List PoolEv)
    (hvalid : validSeqB maxUses (initPool n) evs = true) :
    (poolRun maxUses (initPool n) evs).held.Nodup := by
  have hinv := poolInv_run maxUses evs (initPool n) hvalid (poolInv_init n)
  obtain ⟨hcount, -, -, -⟩ := hinv
  have hids : ((poolRun maxUses (initPool n) evs).held.map Prod.fst).Nodup := by
    rw [List.nodup_iff_count_le_one]
    intro x
    have := hcount x
    rw [idsOf_count_expand] at this
    omega
  exact List.Nodup.of_map _ hids

/-- Witness for C4: two acquires and an interleaved release on a two-slot
pool form a protocol-respecting trace, and the theorem yields no double
hand-out. -/
theorem C4_no_double_handout_witness :
    validSeqB 5 (initPool 2)
        [PoolEv.acquire true, PoolEv.acquire true, PoolEv.release 0 0,
         PoolEv.acquire true] = true ∧
    (poolRun 5 (initPool 2)
        [PoolEv.acquire true, PoolEv.acquire true, PoolEv.release 0 0,
         PoolEv.acquire true]).held.Nodup :=
  ⟨by decide,
   C4_no_double_handout 2 5
     [PoolEv.acquire true, PoolEv.acquire true, PoolEv.release 0 0,
      PoolEv.acquire true] (by decide)⟩

def poolS1 : PoolState :=
  { contextsMap := [(0, ⟨5, 3, true⟩)], avail := [], waiters := 0,
    recycling := [], held := [(0, 5)] }

def poolS2 : PoolState :=
  { contextsMap := [(0, ⟨5, 3, false⟩)], avail := [], waiters := 0,
    recycling := [(0, 5)], held := [] }

/-- Witness for C5 at concrete pool states: a release at the use cap starts
a recycle; the finished recycle stores generation 6, use count 0; with
`contextMaxUses = 0` the same release recycles nothing. -/
theorem C5_recycle_semantics_witness :
    (0, 5) ∈ (poolStep 3 poolS1 (.release 0 5)).recycling ∧
    ((assocFind 0 (poolStep 3 poolS2 (.recycleFinish 0)).contextsMap).map PoolEntry.gen
        = some 6 ∧
     (assocFind 0 (poolStep 3 poolS2 (.recycleFinish 0)).contextsMap).map PoolEntry.useCount
        = some 0) ∧
    (poolStep 0 poolS1 (.release 0 5)).recycling = poolS1.recycling :=
  ⟨(C5_recycle_semantics 3 poolS1 0 5).1 ⟨5, 3, true⟩ (by rfl) (by rfl)
      (by decide) (by decide),
   ⟨((C5_recycle_semantics 3 poolS2 0 5).2.1 (by rfl) (by rfl)).1,
    ((C5_recycle_semantics 3 poolS2 0 5).2.1 (by rfl) (by rfl)).2.2.1 (by rfl)⟩,
   (C5_recycle_semantics 0 poolS1 0 5).2.2⟩

/-! ## Fuel adequacy

The fuel given by the `stripTagged`/`stripTags` wrappers (the input length)
always suffices: the result is the same for every fuel at least the input
length, so the `fuel = 0` base case never influences the wrappers. -/

theorem tagEnd_length {l r : List Char} (h : tagEnd l = some r) :
    r.length < l.length := by
  match l with
  | [] => simp [tagEnd] at h
  | d :: rest2 =>
    by_cases hd : d = '>'
    · simp [tagEnd, hd] at h
    · simp only [tagEnd] at h
      rw [if_neg hd] at h
      have := skipToGt_length h
      simp only [List.length_cons]
      omega

theorem stripTagsF_fuel : ∀ (f1 f2 : Nat) (l : List Char),
    l.length ≤ f1 → l.length ≤ f2 → stripTagsF f1 l = stripTagsF f2 l := by
  intro f1
  induction f1 with
  | zero =>
    intro f2 l h1 _
    have hl : l = [] := List.eq_nil_of_length_eq_zero (Nat.le_zero.mp h1)
    subst hl
    cases f2 <;> rfl
  | succ f ih =>
    intro f2 l h1 h2
    cases l with
    | nil => cases f2 <;> rfl
    | cons c rest =>
      cases f2 with
      | zero => simp at h2
      | succ f2b =>
        simp only [stripTagsF]
        simp only [List.length_cons] at h1 h2
        by_cases hc : c = '<'
        · rw [if_pos hc, if_pos hc]
          cases ht : tagEnd rest with
          | some rest3 =>
            have := tagEnd_length ht
            dsimp only
            rw [ih f2b rest3 (by omega) (by omega)]
          | none =>
            dsimp only
            rw [ih f2b rest (by omega) (by omega)]
        · rw [if_neg hc, if_neg hc]
          rw [ih f2b rest (by omega) (by omega)]

theorem stripTags_fuel_irrelevant (fuel : Nat) (l : List Char)
    (h : l.length ≤ fuel) : stripTags l = stripTagsF fuel l :=
  stripTagsF_fuel l.length fuel l (Nat.le_refl _) h

theorem stripTaggedF_fuel (oh : Char) (or cp : List Char) :
    ∀ (f1 f2 : Nat) (l : List Char), l.length ≤ f1 → l.length ≤ f2 →
      stripTaggedF oh or cp f1 l = stripTaggedF oh or cp f2 l := by
  intro f1
  induction f1 with
  | zero =>
    intro f2 l h1 _
    have hl : l = [] := List.eq_nil_of_length_eq_zero (Nat.le_zero.mp h1)
    subst hl
    cases f2 <;> rfl
  | succ f ih =>
    intro f2 l h1 h2
    cases l with
    | nil => cases f2 <;> rfl
    | cons c rest =>
      cases f2 with
      | zero => simp at h2
      | succ f2b =>
        simp only [stripTaggedF]
        simp only [List.length_cons] at h1 h2
        by_cases hp : (oh :: or).isPrefixOf (c :: rest)
        · rw [if_pos hp, if_pos hp]
          cases hd : dropAfter cp (rest.drop or.length) with
          | some rest2 =>
            have hlen1 : rest2.length ≤ (rest.drop or.length).length :=
              dropAfter_length hd
            rw [List.length_drop] at hlen1
            dsimp only
            rw [ih f2b rest2 (by omega) (by omega)]
          | none =>
            dsimp only
            rw [ih f2b rest (by omega) (by omega)]
        · rw [if_neg hp, if_neg hp]
          rw [ih f2b rest (by omega) (by omega)]

theorem stripTagged_fuel_irrelevant (oh : Char) (or cp : List Char)
    (fuel : Nat) (l : List Char) (h : l.length ≤ fuel) :
    stripTagged oh or cp l = stripTaggedF oh or cp fuel l :=
  stripTaggedF_fuel oh or cp l.length fuel l (Nat.le_refl _) h
